import Mathlib

/-!
# Calendar service: the in-memory event repository

A shallow embedding of `internal/model/model.go`, `internal/repository/repo.go`
and `internal/repository/repo_utills.go`, followed by theorems about it.

Modelling conventions.

* Go `int` is `Int`. The only arithmetic on it is `len(events) + 1`, which cannot
  overflow a 64-bit integer for a slice that fits in memory.
* `map[int][]*model.Event` is a function `Int → Option (List model.Event)`: `none`
  is an absent key, `some l` a present key (also with `l = []`).
* The slices hold pointers. Every stored pointer comes from a fresh `&event` in
  `CreateEvent`, and `DeleteEvent` only moves pointers inside one slice, so no two
  positions of the store ever alias: a slice of pointers is a list of values, a
  pointer into the store is a position of a user's list, and a write through the
  pointer is `List.set` at that position.
* The mutex makes every method one atomic step; a method is a function from the
  store before the call to the store after it and the returned values.
* A run-time panic (nil dereference, index out of range) is the result `none`.
-/

namespace time

/-- The instant of a Go `time.Time` without monotonic reading: `sec` seconds and
`nsec` nanoseconds since January 1, year 1, 00:00:00 UTC, and `offset`, the seconds
east of UTC that the value's location gives at this instant. The zero value of the
Go type is `sec = 0`, `nsec = 0` in UTC. -/
structure Time where
  sec : Int
  nsec : Nat
  offset : Int
deriving DecidableEq

instance : Inhabited Time := ⟨⟨0, 0, 0⟩⟩

def secondsPerDay : Int := 86400
def daysPer400Years : Int := 365 * 400 + 97
def daysPer100Years : Int := 365 * 100 + 24
def daysPer4Years : Int := 365 * 4 + 1

/-- The days elapsed since January 1, year 1 in the value's location (the day part
of Go's `t.abs()`, counted from year 1 instead of the absolute zero year, which
lies a whole number of 400-year cycles earlier). -/
def Time.days (t : Time) : Int := (t.sec + t.offset) / secondsPerDay

def isLeap (year : Int) : Bool :=
  year % 4 == 0 && (year % 100 != 0 || year % 400 == 0)

/-- The table `daysBefore` of package time: `daysBefore[m]` counts the days of a
non-leap year before month `m + 1`. -/
def daysBefore : List Int :=
  [0, 31, 31 + 28, 31 + 28 + 31, 31 + 28 + 31 + 30, 31 + 28 + 31 + 30 + 31,
   31 + 28 + 31 + 30 + 31 + 30, 31 + 28 + 31 + 30 + 31 + 30 + 31,
   31 + 28 + 31 + 30 + 31 + 30 + 31 + 31, 31 + 28 + 31 + 30 + 31 + 30 + 31 + 31 + 30,
   31 + 28 + 31 + 30 + 31 + 30 + 31 + 31 + 30 + 31,
   31 + 28 + 31 + 30 + 31 + 30 + 31 + 31 + 30 + 31 + 30,
   31 + 28 + 31 + 30 + 31 + 30 + 31 + 31 + 30 + 31 + 30 + 31]

/-- The first half of `absDate`: the year and the zero-based day of the year of a
day count `d0` since January 1, year 1. -/
def yearAndYday (d0 : Int) : Int × Int :=
  let n400 := d0 / daysPer400Years
  let d1 := d0 - daysPer400Years * n400
  let c := d1 / daysPer100Years
  let n100 := c - c / 4
  let d2 := d1 - daysPer100Years * n100
  let n4 := d2 / daysPer4Years
  let d3 := d2 - daysPer4Years * n4
  let q := d3 / 365
  let n1 := q - q / 4
  let d4 := d3 - 365 * n1
  (400 * n400 + 100 * n100 + 4 * n4 + n1 + 1, d4)

/-- The second half of `absDate`: month (January is 1) and day of the month of the
zero-based day `yday` of `year`. -/
def monthAndDay (year yday : Int) : Int × Int :=
  if isLeap year && yday == 31 + 29 - 1 then (2, 29)
  else
    let day := if isLeap year && decide (yday > 31 + 29 - 1) then yday - 1 else yday
    let month := day / 31
    let stop := daysBefore.getD (month + 1).toNat 0
    if day ≥ stop then (month + 2, day - stop + 1)
    else (month + 1, day - daysBefore.getD month.toNat 0 + 1)

def Time.Year (t : Time) : Int := (yearAndYday t.days).1

def Time.Month (t : Time) : Int :=
  (monthAndDay (yearAndYday t.days).1 (yearAndYday t.days).2).1

def Time.Day (t : Time) : Int :=
  (monthAndDay (yearAndYday t.days).1 (yearAndYday t.days).2).2

/-- Day of the week, Sunday = 0; January 1 of year 1 is a Monday. -/
def Time.Weekday (t : Time) : Int := (t.days + 1) % 7

/-- ISO 8601 year and week number: the year and the week of the year of the
Thursday of the value's Monday-to-Sunday week. -/
def Time.ISOWeek (t : Time) : Int × Int :=
  let d := 4 - t.Weekday
  let d := if d = 4 then -3 else d
  let yy := yearAndYday (t.days + d)
  (yy.1, yy.2 / 7 + 1)

end time

namespace model

/-- Go: `type Date time.Time`. -/
abbrev Date := time.Time

structure Event where
  EventId : Int
  UserId : Int
  Text : String
  Date : Date
deriving DecidableEq

/-- The zero value `model.Event{}`. -/
instance : Inhabited Event := ⟨⟨0, 0, "", default⟩⟩

/-- The pointer fields of the Go struct are options: `none` is a nil pointer. -/
structure UpdateEvent where
  EventId : Option Int
  UserId : Option Int
  Text : Option String
  Date : Option Date
deriving DecidableEq

end model

namespace repository

inductive Error where
  | ErrNoSuchEvent
  | ErrNoSuchUser
deriving DecidableEq

open Error

/-- The repository without its mutex. -/
structure Repository where
  events : Int → Option (List model.Event)

/-- Map assignment `m[k] = v`. -/
def assign (m : Int → Option (List model.Event)) (k : Int) (v : List model.Event) :
    Int → Option (List model.Event) :=
  fun j => if j = k then some v else m j

def New : Repository := ⟨fun _ => none⟩

/-- Go: `Repository.CreateEvent`; the new store and the returned event. Reading an
absent key yields the nil slice, of length 0. -/
def CreateEvent (r : Repository) (event : model.Event) : Repository × model.Event :=
  let events := (r.events event.UserId).getD []
  let event := { event with EventId := (events.length : Int) + 1 }
  let events := events ++ [event]
  (⟨assign r.events event.UserId events⟩, event)

/-- The loop `for i, event := range events` with the test
`event.EventId == eventId` of `getEventByUserId` and of `DeleteEvent`: the first
position whose event carries `eventId`, and that event. -/
def scan (eventId : Int) : List model.Event → Option (Nat × model.Event)
  | [] => none
  | event :: rest =>
    if event.EventId = eventId then some (0, event)
    else (scan eventId rest).map fun p => (p.1 + 1, p.2)

/-- Go: `Repository.getEventByUserId`. The returned pointer is the position of the
event in the user's slice together with the event it points to; `none` is the
result `(nil, false)`. Reading an absent key yields the nil slice. -/
def getEventByUserId (r : Repository) (userId eventId : Int) :
    Option (Nat × model.Event) :=
  scan eventId ((r.events userId).getD [])

/-- Go: `Repository.UpdateEvent`. `none` is the panic of dereferencing a nil
`UserId` or `EventId`. The two assignments through the pointer are one `List.set`
at its position with the event after both. -/
def UpdateEvent (r : Repository) (updateEvent : model.UpdateEvent) :
    Option (Repository × model.Event × Option Error) :=
  match updateEvent.UserId, updateEvent.EventId with
  | some userId, some eventId =>
    match getEventByUserId r userId eventId with
    | none => some (r, default, some ErrNoSuchEvent)
    | some (i, event) =>
      let event := match updateEvent.Text with
        | some text => { event with Text := text }
        | none => event
      let event := match updateEvent.Date with
        | some date => { event with Date := date }
        | none => event
      some (⟨assign r.events userId (((r.events userId).getD []).set i event)⟩, event, none)
  | _, _ => none

/-- A Go index expression `s[i]` with a signed index: `none` is the panic. -/
def index? (s : List model.Event) (i : Int) : Option model.Event :=
  if i < 0 then none else s[i.toNat]?

/-- A Go reslice `s[:hi]`, taken within the length: `none` is the panic. -/
def slice? (s : List model.Event) (hi : Int) : Option (List model.Event) :=
  if 0 ≤ hi ∧ hi ≤ s.length then some (s.take hi.toNat) else none

/-- Go: `Repository.DeleteEvent`. `none` is a panic of one of the index
expressions of the loop body. -/
def DeleteEvent (r : Repository) (userId eventId : Int) :
    Option (Repository × Option Error) :=
  match r.events userId with
  | none => some (r, some ErrNoSuchUser)
  | some events =>
    match scan eventId events with
    | none => some (r, some ErrNoSuchEvent)
    | some (i, _) =>
      match index? events ((events.length : Int) - 1) with
      | none => none
      | some last =>
        if i < events.length then
          match slice? (events.set i last) ((events.length : Int) - 1) with
          | none => none
          | some events => some (⟨assign r.events userId events⟩, none)
        else none

/-- Go: `Repository.GetEventsForDay`; a nil slice is the empty list. -/
def GetEventsForDay (r : Repository) (userId : Int) (date : time.Time) :
    List model.Event × Option Error :=
  match r.events userId with
  | none => ([], some ErrNoSuchUser)
  | some events =>
    (events.filter fun event =>
      decide (event.Date.Day = date.Day ∧ event.Date.Year = date.Year), none)

/-- Go: `Repository.GetEventsForWeek`. -/
def GetEventsForWeek (r : Repository) (userId : Int) (date : time.Time) :
    List model.Event × Option Error :=
  match r.events userId with
  | none => ([], some ErrNoSuchUser)
  | some events =>
    (events.filter fun event =>
      decide (date.ISOWeek.1 = event.Date.ISOWeek.1 ∧
        date.ISOWeek.2 = event.Date.ISOWeek.2), none)

/-- Go: `Repository.GetEventsForMonth`. -/
def GetEventsForMonth (r : Repository) (userId : Int) (date : time.Time) :
    List model.Event × Option Error :=
  match r.events userId with
  | none => ([], some ErrNoSuchUser)
  | some events =>
    (events.filter fun event =>
      decide (event.Date.Month = date.Month ∧ event.Date.Year = date.Year), none)

/-- One call of a mutating method. -/
inductive Op where
  | create (event : model.Event)
  | update (updateEvent : model.UpdateEvent)
  | delete (userId eventId : Int)

/-- The store after one call; a call that panics or fails leaves it as it was. -/
def step (r : Repository) : Op → Repository
  | .create event => (CreateEvent r event).1
  | .update updateEvent =>
    match UpdateEvent r updateEvent with
    | some (r', _, _) => r'
    | none => r
  | .delete userId eventId =>
    match DeleteEvent r userId eventId with
    | some (r', _) => r'
    | none => r

/-- The store reached from `New()` by a finite sequence of calls. -/
def run (ops : List Op) : Repository := ops.foldl step New

/-- The calls of a history that create an event for `userId`. -/
def createdBy (userId : Int) : Op → Bool
  | .create event => decide (event.UserId = userId)
  | _ => false

/-- Whether some call of the history created an event for `userId`. -/
def hasCreated (ops : List Op) (userId : Int) : Bool := ops.any (createdBy userId)

/-! ## Fixtures: the events of `repo_test.go` -/

/-- The instant 2024-01-15 10:00:00 UTC. -/
def jan15 : model.Date := ⟨63840909600, 0, 0⟩

/-- The instant 2024-01-16 10:00:00 UTC. -/
def jan16 : model.Date := ⟨63840996000, 0, 0⟩

def event1 : model.Event := ⟨0, 1, "Event 1", jan15⟩

def event2 : model.Event := ⟨0, 1, "Event 2", jan16⟩

end repository

namespace repository

open Error

/-- Whether a call is a `DeleteEvent`. -/
def isDelete : Op → Bool
  | .delete _ _ => true
  | _ => false

/-- Every event of a user's sequence carries that user's id. -/
def Owned (r : Repository) : Prop :=
  ∀ u evs, r.events u = some evs → ∀ e ∈ evs, e.UserId = u

/-- Every user's sequence carries the eventIds 1, 2, ... in that order: the event
at position `i` (from 0) has `EventId` `i + 1`. -/
def Numbered (r : Repository) : Prop :=
  ∀ u evs, r.events u = some evs →
    ∀ (i : Nat) (e : model.Event), evs[i]? = some e → e.EventId = (i : Int) + 1

namespace stateful

/-- The loop `for _, event := range events { if ... { out = append(out, event) } }`
of the three range queries, statement by statement over the pair of the store and
the local result slice: an iteration reads one event and appends it to the local
slice when the test holds. No statement of the loop assigns to `r.events` or
through a stored pointer. -/
def rangeLoop (test : model.Event → Bool) :
    List model.Event → Repository × List model.Event → Repository × List model.Event
  | [], s => s
  | event :: rest, (r, out) =>
    rangeLoop test rest (r, if test event then out ++ [event] else out)

/-- Go: `Repository.GetEventsForDay` as a method of the store: the store after the
call, the returned slice and the error. -/
def GetEventsForDay (r : Repository) (userId : Int) (date : time.Time) :
    Repository × List model.Event × Option Error :=
  match r.events userId with
  | none => (r, [], some ErrNoSuchUser)
  | some events =>
    let s := rangeLoop (fun event =>
      decide (event.Date.Day = date.Day ∧ event.Date.Year = date.Year)) events (r, [])
    (s.1, s.2, none)

/-- Go: `Repository.GetEventsForWeek` as a method of the store. -/
def GetEventsForWeek (r : Repository) (userId : Int) (date : time.Time) :
    Repository × List model.Event × Option Error :=
  match r.events userId with
  | none => (r, [], some ErrNoSuchUser)
  | some events =>
    let s := rangeLoop (fun event =>
      decide (date.ISOWeek.1 = event.Date.ISOWeek.1 ∧
        date.ISOWeek.2 = event.Date.ISOWeek.2)) events (r, [])
    (s.1, s.2, none)

/-- Go: `Repository.GetEventsForMonth` as a method of the store. -/
def GetEventsForMonth (r : Repository) (userId : Int) (date : time.Time) :
    Repository × List model.Event × Option Error :=
  match r.events userId with
  | none => (r, [], some ErrNoSuchUser)
  | some events =>
    let s := rangeLoop (fun event =>
      decide (event.Date.Month = date.Month ∧ event.Date.Year = date.Year)) events (r, [])
    (s.1, s.2, none)

end stateful

/-! ## Fixtures: dates by their instant at 00:00:00 UTC -/

/-- The instant 2024-01-17 00:00:00 UTC, a Wednesday. -/
def jan17 : model.Date := ⟨63841046400, 0, 0⟩

/-- The instant 2024-01-21 10:00:00 UTC, a Sunday. -/
def jan21 : model.Date := ⟨63841428000, 0, 0⟩

/-- The instant 2024-01-22 10:00:00 UTC, a Monday. -/
def jan22 : model.Date := ⟨63841514400, 0, 0⟩

/-- The instant 2024-02-01 10:00:00 UTC. -/
def feb1 : model.Date := ⟨63842378400, 0, 0⟩

/-- The instant 2024-02-15 10:00:00 UTC. -/
def feb15 : model.Date := ⟨63843588000, 0, 0⟩

/-- The instant 2024-12-29 00:00:00 UTC, a Sunday. -/
def dec29 : model.Date := ⟨63871027200, 0, 0⟩

/-- The instant 2024-12-30 00:00:00 UTC, a Monday. -/
def dec30 : model.Date := ⟨63871113600, 0, 0⟩

/-- The instant 2025-01-01 00:00:00 UTC, a Wednesday. -/
def jan1of2025 : model.Date := ⟨63871286400, 0, 0⟩

end repository

namespace http

def StatusOK : Nat := 200
def StatusBadRequest : Nat := 400
def StatusInternalServerError : Nat := 500
def StatusServiceUnavailable : Nat := 503

end http

namespace handler

open repository

/-- A Go `error` value as the handlers inspect it: one of the two sentinel values
of package repository, some other error, or an error wrapping another one. -/
inductive GoError where
  | sentinel (e : repository.Error)
  | other (msg : String)
  | wrap (msg : String) (inner : GoError)

/-- Go: `errors.Is(err, target)` for a sentinel `target`: the chain of `err` holds
the sentinel. -/
def errorsIs : GoError → repository.Error → Bool
  | .sentinel e, target => decide (e = target)
  | .other _, _ => false
  | .wrap _ inner, target => errorsIs inner target

/-- Go: `err.Error()`, with the messages of `repo.go` for the sentinels. -/
def GoError.Error : GoError → String
  | .sentinel .ErrNoSuchEvent => "no such event in database"
  | .sentinel .ErrNoSuchUser => "no such user in database"
  | .other msg => msg
  | .wrap msg _ => msg

/-- Go: the interface `EventsService`, by the values its methods return. -/
structure EventsService where
  CreateEvent : model.Event → model.Event
  UpdateEvent : model.UpdateEvent → model.Event × Option GoError
  DeleteEvent : Int → Int → Option GoError
  GetEventsForDay : Int → time.Time → List model.Event × Option GoError
  GetEventsForWeek : Int → time.Time → List model.Event × Option GoError
  GetEventsForMonth : Int → time.Time → List model.Event × Option GoError

/-- What a handler reads of the `gin.Context`: the query parameters and the body. -/
structure Request where
  Query : String → String
  Body : String

/-- The library functions the handlers call, as parameters: `strconv.Atoi`,
`time.Parse(time.DateOnly, ·)`, `c.BindJSON(&updateEvent)` on the struct filled so
far, and `validator.Validate.Struct` followed by
`CreateValidationErrorResponse` (`none` when validation passes). -/
structure Library where
  Atoi : String → Except String Int
  ParseDateOnly : String → Except String time.Time
  BindJSON : Request → model.UpdateEvent → Except String model.UpdateEvent
  Validate : model.UpdateEvent → Option String

/-- The JSON value written by `c.JSON`. -/
inductive JSON where
  | error (msg : String)
  | result (msg : String)
  | event (event : model.Event)
  | events (events : List model.Event)

/-- The response written by `c.JSON(status, value)`. -/
structure Response where
  status : Nat
  body : JSON

/-- The block `if err != nil { ... }` after a service call, the same in the five
handlers: the response for a non-nil service error. -/
def serviceError (err : GoError) : Response :=
  if errorsIs err .ErrNoSuchEvent || errorsIs err .ErrNoSuchUser then
    ⟨http.StatusServiceUnavailable, .error err.Error⟩
  else ⟨http.StatusInternalServerError, .error err.Error⟩

/-- Go: `Handler.UpdateEvent`. -/
def UpdateEvent (lib : Library) (service : EventsService) (c : Request) : Response :=
  match lib.Atoi (c.Query "user_id") with
  | .error _ => ⟨http.StatusBadRequest, .error "invalid user_id or was not provided"⟩
  | .ok userId =>
    match lib.Atoi (c.Query "event_id") with
    | .error _ => ⟨http.StatusBadRequest, .error "invalid event_id or was not provided"⟩
    | .ok event_id =>
      match lib.BindJSON c ⟨some event_id, some userId, none, none⟩ with
      | .error msg => ⟨http.StatusBadRequest, .error msg⟩
      | .ok updateEvent =>
        match lib.Validate updateEvent with
        | some errMsg => ⟨http.StatusBadRequest, .error errMsg⟩
        | none =>
          match service.UpdateEvent updateEvent with
          | (_, some err) => serviceError err
          | (event, none) => ⟨http.StatusOK, .event event⟩

/-- Go: `Handler.DeleteEvent`. -/
def DeleteEvent (lib : Library) (service : EventsService) (c : Request) : Response :=
  match lib.Atoi (c.Query "user_id") with
  | .error _ => ⟨http.StatusBadRequest, .error "invalid user_id or was not provided"⟩
  | .ok userId =>
    match lib.Atoi (c.Query "event_id") with
    | .error _ => ⟨http.StatusBadRequest, .error "invalid event_id or was not provided"⟩
    | .ok event_id =>
      match service.DeleteEvent userId event_id with
      | some err => serviceError err
      | none => ⟨http.StatusOK, .result "sucessfully deleted event"⟩

/-- Go: `Handler.GetEventsForDay`. -/
def GetEventsForDay (lib : Library) (service : EventsService) (c : Request) : Response :=
  match lib.Atoi (c.Query "user_id") with
  | .error _ => ⟨http.StatusBadRequest, .error "invalid user_id or was not provided"⟩
  | .ok userId =>
    match lib.ParseDateOnly (c.Query "date") with
    | .error _ => ⟨http.StatusBadRequest, .error "invalid date format"⟩
    | .ok date =>
      match service.GetEventsForDay userId date with
      | (_, some err) => serviceError err
      | (events, none) => ⟨http.StatusOK, .events events⟩

/-- Go: `Handler.GetEventsForWeek`. -/
def GetEventsForWeek (lib : Library) (service : EventsService) (c : Request) : Response :=
  match lib.Atoi (c.Query "user_id") with
  | .error _ => ⟨http.StatusBadRequest, .error "invalid user_id or was not provided"⟩
  | .ok userId =>
    match lib.ParseDateOnly (c.Query "date") with
    | .error _ => ⟨http.StatusBadRequest, .error "invalid date format"⟩
    | .ok date =>
      match service.GetEventsForWeek userId date with
      | (_, some err) => serviceError err
      | (events, none) => ⟨http.StatusOK, .events events⟩

/-- Go: `Handler.GetEventsForMonth`. -/
def GetEventsForMonth (lib : Library) (service : EventsService) (c : Request) : Response :=
  match lib.Atoi (c.Query "user_id") with
  | .error _ => ⟨http.StatusBadRequest, .error "invalid user_id or was not provided"⟩
  | .ok userId =>
    match lib.ParseDateOnly (c.Query "date") with
    | .error _ => ⟨http.StatusBadRequest, .error "invalid date format"⟩
    | .ok date =>
      match service.GetEventsForMonth userId date with
      | (_, some err) => serviceError err
      | (events, none) => ⟨http.StatusOK, .events events⟩

/-- The status the error mapping prescribes for the outcome of a service call: 200
for no error, 503 for an error that is `ErrNoSuchEvent` or `ErrNoSuchUser` (in the
sense of `errors.Is`), 500 for any other error. -/
def statusFor : Option GoError → Nat
  | none => 200
  | some err =>
    if errorsIs err .ErrNoSuchEvent = true ∨ errorsIs err .ErrNoSuchUser = true then 503
    else 500

/-! ## Fixtures: the requests and mock services of `handler_test.go` -/

/-- A library on which every parse of the fixtures succeeds: ids parse to 1, the
date to 2024-01-15, the body binds no field and validation passes. -/
def testLibrary : Library where
  Atoi := fun _ => .ok 1
  ParseDateOnly := fun _ => .ok repository.jan15
  BindJSON := fun _ updateEvent => .ok updateEvent
  Validate := fun _ => none

/-- The request `?user_id=1&event_id=1&date=2024-01-15`. -/
def testRequest : Request where
  Query := fun key => if key = "date" then "2024-01-15" else "1"
  Body := ""

/-- The mock service of `TestUpdateEvent_ServiceError` and
`TestGetEventsForDay_ServiceError`: update and delete fail with `ErrNoSuchEvent`,
the queries with `ErrNoSuchUser`. -/
def failingService : EventsService where
  CreateEvent := fun event => event
  UpdateEvent := fun _ => (default, some (.sentinel .ErrNoSuchEvent))
  DeleteEvent := fun _ _ => some (.sentinel .ErrNoSuchEvent)
  GetEventsForDay := fun _ _ => ([], some (.sentinel .ErrNoSuchUser))
  GetEventsForWeek := fun _ _ => ([], some (.sentinel .ErrNoSuchUser))
  GetEventsForMonth := fun _ _ => ([], some (.sentinel .ErrNoSuchUser))

end handler

namespace time

/-- Go: `t.After(u)` when not both values carry a monotonic clock reading (a parsed
date never does): the instant of `t` is later than the instant of `u`, by seconds
and then nanoseconds. -/
def Time.After (t u : Time) : Bool :=
  decide (t.sec > u.sec) || (decide (t.sec = u.sec) && decide (t.nsec > u.nsec))

end time

namespace validator

/-- The value `fl.Field().Interface()` of the field under validation, by its
dynamic type: a `model.Date`, or a value of another type. -/
inductive Field where
  | date (date : model.Date)
  | other

/-- Go: `dateAfterNow`; `now` is the value `time.Now()` returns in the call. -/
def dateAfterNow (fl : Field) (now : time.Time) : Bool :=
  match fl with
  | .other => false
  | .date date => time.Time.After date now

/-- One entry of `validator.ValidationErrors`: the name of the struct field and the
tag that failed. -/
structure FieldError where
  Field : String
  Tag : String
deriving DecidableEq

/-- Go: `CreateValidationErrorResponse` on the entries of the
`validator.ValidationErrors`: every entry overwrites `msg`, so the message of the
last one is returned. -/
def CreateValidationErrorResponse (validationErrors : List FieldError) : String :=
  validationErrors.foldl (fun _ fe =>
    if fe.Tag = "required" then fe.Field ++ " is required"
    else if fe.Tag = "date_after_now" then fe.Field ++ " must be a date in the future"
    else fe.Field ++ " is not valid due to " ++ fe.Tag) ""

/-- `Validate.Struct(event)` for a `model.Event`, by the `validate` tags of
`model.go` (`UserId` and `Text`: `required`; `Date`: `required,date_after_now`;
`EventId`: none) and the registration of `dateAfterNow` under `date_after_now` in
`init`. The engine is the library go-playground/validator: the fields are visited
in order, the tags of a field are tried in order and the first one that fails is
recorded, `required` fails on the zero value of the field's type. The empty list is
the nil error. -/
def ValidateStruct (now : time.Time) (event : model.Event) : List FieldError :=
  (if event.UserId = 0 then [⟨"UserId", "required"⟩] else []) ++
  (if event.Text = "" then [⟨"Text", "required"⟩] else []) ++
  (if event.Date = default then [⟨"Date", "required"⟩]
   else if dateAfterNow (.date event.Date) now then []
   else [⟨"Date", "date_after_now"⟩])

end validator

namespace service

/-- Go: `Service.CreateEvent`, which hands the event to the storage. -/
def CreateEvent (storage : repository.Repository) (event : model.Event) :
    repository.Repository × model.Event :=
  repository.CreateEvent storage event

end service

namespace handler

/-- Go: `Handler.CreateEvent`, threading the state `σ` behind the service:
`BindJSON` is `c.BindJSON(&event)`, `now` the clock read by the validation, and
`service event s` the call `h.service.CreateEvent(event)` in state `s`. The
service is called on the last path only. -/
def CreateEvent {σ : Type} (BindJSON : Request → Except String model.Event)
    (now : time.Time) (service : model.Event → σ → σ × model.Event)
    (c : Request) (s : σ) : σ × Response :=
  match BindJSON c with
  | .error msg => (s, ⟨http.StatusBadRequest, .error msg⟩)
  | .ok event =>
    match validator.ValidateStruct now event with
    | fe :: rest =>
      (s, ⟨http.StatusBadRequest,
        .error (validator.CreateValidationErrorResponse (fe :: rest))⟩)
    | [] =>
      let res := service event s
      (res.1, ⟨http.StatusOK, .event res.2⟩)

/-- The request of `TestCreateEvent_ValidationError`, already bound: an event of
user 1 dated 2024-01-15, validated at 2024-01-17. -/
def pastDateEvent : model.Event := ⟨0, 1, "Test Event", repository.jan15⟩

end handler

namespace repository

open Error

/-! ## Lemmas on maps and on the scan loop -/

theorem assign_same (m : Int → Option (List model.Event)) (k : Int) (v : List model.Event) :
    assign m k v k = some v := by
  simp [assign]

theorem assign_other (m : Int → Option (List model.Event)) (k j : Int)
    (v : List model.Event) (h : j ≠ k) : assign m k v j = m j := by
  simp [assign, h]

theorem scan_eq_none (eventId : Int) (l : List model.Event) :
    scan eventId l = none ↔ ∀ e ∈ l, e.EventId ≠ eventId := by
  induction l with
  | nil => simp [scan]
  | cons a rest ih =>
    by_cases h : a.EventId = eventId
    · simp [scan, h]
    · simp [scan, h, ih]

theorem scan_eq_some (eventId : Int) (l : List model.Event) (i : Nat) (e : model.Event)
    (h : scan eventId l = some (i, e)) :
    l[i]? = some e ∧ e.EventId = eventId ∧
      ∀ j e', j < i → l[j]? = some e' → e'.EventId ≠ eventId := by
  induction l generalizing i with
  | nil => simp [scan] at h
  | cons a rest ih =>
    by_cases ha : a.EventId = eventId
    · simp [scan, ha] at h
      obtain ⟨rfl, rfl⟩ := h
      exact ⟨by simp, ha, by intro j e' hj; omega⟩
    · simp only [scan, ha, if_false, Option.map_eq_some'] at h
      obtain ⟨⟨k, e0⟩, hk, hke⟩ := h
      simp only [Prod.mk.injEq] at hke
      obtain ⟨rfl, rfl⟩ := hke
      obtain ⟨he, hid, hmin⟩ := ih k hk
      refine ⟨by simpa using he, hid, ?_⟩
      intro j e' hj hje
      cases j with
      | zero =>
        simp at hje
        subst hje
        exact ha
      | succ j =>
        simp at hje
        exact hmin j e' (by omega) hje

theorem scan_lt (eventId : Int) (l : List model.Event) (i : Nat) (e : model.Event)
    (h : scan eventId l = some (i, e)) : i < l.length := by
  obtain ⟨he, _⟩ := scan_eq_some eventId l i e h
  exact (List.getElem?_eq_some_iff.mp he).1

theorem scan_isSome (eventId : Int) (l : List model.Event) :
    (∃ p, scan eventId l = some p) ↔ ∃ e ∈ l, e.EventId = eventId := by
  constructor
  · rintro ⟨⟨i, e⟩, hi⟩
    obtain ⟨he, hid, _⟩ := scan_eq_some eventId l i e hi
    exact ⟨e, List.getElem?_mem he, hid⟩
  · rintro ⟨e, he, hid⟩
    cases hf : scan eventId l with
    | some p => exact ⟨p, rfl⟩
    | none => exact absurd hid ((scan_eq_none eventId l).mp hf e he)

end repository

namespace repository

open Error

theorem scan_of_first (eventId : Int) (l : List model.Event) (i : Nat) (e : model.Event)
    (hi : l[i]? = some e) (hid : e.EventId = eventId)
    (hmin : ∀ j e', j < i → l[j]? = some e' → e'.EventId ≠ eventId) :
    scan eventId l = some (i, e) := by
  cases hs : scan eventId l with
  | none => exact absurd hid ((scan_eq_none eventId l).mp hs e (List.getElem?_mem hi))
  | some p =>
    obtain ⟨k, e0⟩ := p
    obtain ⟨hk, hkid, hkmin⟩ := scan_eq_some eventId l k e0 hs
    have hik : i = k := by
      rcases Nat.lt_trichotomy i k with h | h | h
      · exact absurd hid (hkmin i e h hi)
      · exact h
      · exact absurd hkid (hmin k e0 h hk)
    subst hik
    rw [hi] at hk
    cases hk
    rfl

/-! ## Closed forms of the mutating methods -/

theorem UpdateEvent_missing (r : Repository) (userId eventId : Int)
    (text : Option String) (date : Option model.Date)
    (h : getEventByUserId r userId eventId = none) :
    UpdateEvent r ⟨some eventId, some userId, text, date⟩
      = some (r, default, some ErrNoSuchEvent) := by
  simp [UpdateEvent, h]

theorem UpdateEvent_found (r : Repository) (userId eventId : Int)
    (text : Option String) (date : Option model.Date) (i : Nat) (prior : model.Event)
    (h : getEventByUserId r userId eventId = some (i, prior)) :
    UpdateEvent r ⟨some eventId, some userId, text, date⟩
      = some (⟨assign r.events userId (((r.events userId).getD []).set i
                ⟨prior.EventId, prior.UserId, text.getD prior.Text, date.getD prior.Date⟩)⟩,
              ⟨prior.EventId, prior.UserId, text.getD prior.Text, date.getD prior.Date⟩,
              none) := by
  cases text <;> cases date <;> simp [UpdateEvent, h]

theorem DeleteEvent_absent (r : Repository) (userId eventId : Int)
    (h : r.events userId = none) :
    DeleteEvent r userId eventId = some (r, some ErrNoSuchUser) := by
  simp [DeleteEvent, h]

theorem DeleteEvent_missing (r : Repository) (userId eventId : Int)
    (evs : List model.Event) (h : r.events userId = some evs)
    (hs : scan eventId evs = none) :
    DeleteEvent r userId eventId = some (r, some ErrNoSuchEvent) := by
  simp [DeleteEvent, h, hs]

theorem DeleteEvent_found (r : Repository) (userId eventId : Int)
    (evs : List model.Event) (i : Nat) (e : model.Event)
    (h : r.events userId = some evs) (hs : scan eventId evs = some (i, e)) :
    ∃ last, evs[evs.length - 1]? = some last ∧
      DeleteEvent r userId eventId
        = some (⟨assign r.events userId ((evs.set i last).take (evs.length - 1))⟩, none) := by
  have hlt := scan_lt eventId evs i e hs
  have hpos : evs.length - 1 < evs.length := by omega
  refine ⟨evs[evs.length - 1], by simp [List.getElem?_eq_getElem hpos], ?_⟩
  have h1 : ¬ ((evs.length : Int) - 1 < 0) := by omega
  have h2 : ((evs.length : Int) - 1).toNat = evs.length - 1 := by omega
  have h3 : (0 : Int) ≤ (evs.length : Int) - 1 ∧
      (evs.length : Int) - 1 ≤ ((evs.set i evs[evs.length - 1]).length : Int) := by
    simp
    omega
  simp only [DeleteEvent, h, hs, index?, h1, if_false, h2, List.getElem?_eq_getElem hpos,
    hlt, if_true, slice?, h3, and_self]

end repository

namespace repository

open Error

/-! ## CreateEvent -/

/-- C1: `CreateEvent` is total; it returns the input event with `EventId` replaced by
the length of the user's sequence before the call plus one (1 for a user without a
sequence) and `UserId`, `Text`, `Date` as given, whatever `EventId` the caller
supplied; afterwards the user's sequence is the previous one with the returned
event appended. -/
theorem CreateEvent_assigns_length_succ (r : Repository) (e : model.Event) :
    (CreateEvent r e).2
        = ⟨(((r.events e.UserId).getD []).length : Int) + 1, e.UserId, e.Text, e.Date⟩ ∧
      (CreateEvent r e).1.events e.UserId
        = some ((r.events e.UserId).getD [] ++ [(CreateEvent r e).2]) ∧
      (r.events e.UserId = none → (CreateEvent r e).2.EventId = 1) ∧
      (∀ k : Int, CreateEvent r { e with EventId := k } = CreateEvent r e) := by
  refine ⟨rfl, ?_, ?_, fun _ => rfl⟩
  · simp [CreateEvent, assign]
  · intro h
    simp [CreateEvent, h]

/-- C1, at the first two calls of `TestCreateEvent`: ids 1 and 2 in order. -/
theorem CreateEvent_assigns_length_succ_witness :
    (CreateEvent New event1).2 = ⟨1, 1, "Event 1", jan15⟩ ∧
      (CreateEvent (CreateEvent New event1).1 event2).1.events 1
        = some [⟨1, 1, "Event 1", jan15⟩, ⟨2, 1, "Event 2", jan16⟩] := by
  have h1 := (CreateEvent_assigns_length_succ New event1).1
  have h2 := (CreateEvent_assigns_length_succ (CreateEvent New event1).1 event2).2.1
  exact ⟨h1, h2⟩

end repository

namespace repository

open Error

/-! ## Identifiers after a deletion -/

/-- C2: the history create, create, delete id 1, create for one user ends in a
sequence whose two events both carry `EventId` 2: the swap-remove leaves the
event with id 2 in a sequence of length 1, and the next `CreateEvent` assigns
length + 1 = 2 again. The eventIds of a user's sequence are not pairwise distinct
in every reachable store. -/
theorem run_duplicate_event_ids :
    (run [.create event1, .create event2, .delete 1 1, .create event1]).events 1
        = some [⟨2, 1, "Event 2", jan16⟩, ⟨2, 1, "Event 1", jan15⟩] ∧
      ¬ ([(⟨2, 1, "Event 2", jan16⟩ : model.Event), ⟨2, 1, "Event 1", jan15⟩].map
          fun e => e.EventId).Nodup := by
  constructor
  · rfl
  · decide

theorem CreateEvent_id_of_length (r : Repository) (e : model.Event)
    (evs : List model.Event) (h : r.events e.UserId = some evs) :
    (CreateEvent r e).2.EventId = (evs.length : Int) + 1 := by
  simp [CreateEvent, h]

/-- C3: identifiers are reused by length. Whenever `DeleteEvent` succeeds for a
user whose sequence has `n` events, `n ≥ 1` and the next `CreateEvent` for that
user returns the id `n`; in particular, for a user holding exactly the events with
ids 1 and 2, deleting id 2 succeeds and the next created event gets id 2. -/
theorem delete_then_create_reuses_length :
    (∀ (r r' : Repository) (userId eventId : Int) (evs : List model.Event)
        (e : model.Event), r.events userId = some evs →
        DeleteEvent r userId eventId = some (r', none) → e.UserId = userId →
        1 ≤ evs.length ∧ (CreateEvent r' e).2.EventId = (evs.length : Int)) ∧
      (∀ (r : Repository) (userId : Int) (evs : List model.Event) (e : model.Event),
        r.events userId = some evs → (evs.map fun x => x.EventId).Perm [1, 2] →
        e.UserId = userId →
        ∃ r', DeleteEvent r userId 2 = some (r', none) ∧ (CreateEvent r' e).2.EventId = 2) := by
  have general : ∀ (r r' : Repository) (userId eventId : Int) (evs : List model.Event)
      (e : model.Event), r.events userId = some evs →
      DeleteEvent r userId eventId = some (r', none) → e.UserId = userId →
      1 ≤ evs.length ∧ (CreateEvent r' e).2.EventId = (evs.length : Int) := by
    intro r r' userId eventId evs e hu hd he
    cases hs : scan eventId evs with
    | none =>
      rw [DeleteEvent_missing r userId eventId evs hu hs] at hd
      simp at hd
    | some p =>
      obtain ⟨i, x⟩ := p
      have hlt := scan_lt eventId evs i x hs
      obtain ⟨last, _, hdel⟩ := DeleteEvent_found r userId eventId evs i x hu hs
      rw [hdel] at hd
      simp only [Option.some.injEq, Prod.mk.injEq, and_true] at hd
      subst hd
      subst he
      refine ⟨by omega, ?_⟩
      rw [CreateEvent_id_of_length _ e ((evs.set i last).take (evs.length - 1))
        (assign_same _ _ _)]
      simp
      omega
  refine ⟨general, ?_⟩
  intro r userId evs e hu hp he
  have hlen : evs.length = 2 := by simpa using hp.length_eq
  have hmem : ∃ x ∈ evs, x.EventId = 2 := by
    have : (2 : Int) ∈ evs.map fun x => x.EventId := hp.symm.subset (by simp)
    simpa using this
  obtain ⟨⟨i, x⟩, hs⟩ := (scan_isSome 2 evs).mpr hmem
  obtain ⟨last, _, hdel⟩ := DeleteEvent_found r userId 2 evs i x hu hs
  refine ⟨_, hdel, ?_⟩
  have := (general r _ userId 2 evs e hu hdel he).2
  rw [this, hlen]
  rfl

/-- C3, on the store of `TestDeleteEvent` for user 1: ids 1 and 2, delete id 2,
create: the new event has id 2. -/
theorem delete_then_create_reuses_length_witness :
    (run [.create event1, .create event2]).events 1
        = some [⟨1, 1, "Event 1", jan15⟩, ⟨2, 1, "Event 2", jan16⟩] ∧
      ∃ r', DeleteEvent (run [.create event1, .create event2]) 1 2 = some (r', none) ∧
        (CreateEvent r' event1).2.EventId = 2 :=
  ⟨rfl, delete_then_create_reuses_length.2 (run [.create event1, .create event2]) 1
    [⟨1, 1, "Event 1", jan15⟩, ⟨2, 1, "Event 2", jan16⟩] event1 rfl (by decide) rfl⟩

end repository

namespace repository

open Error

/-! ## UpdateEvent -/

theorem set_of_getElem? (l : List model.Event) (i : Nat) (e : model.Event)
    (h : l[i]? = some e) : l.set i e = l := by
  induction l generalizing i with
  | nil => rfl
  | cons a rest ih =>
    cases i with
    | zero =>
      simp at h
      simp [h]
    | succ k =>
      simp at h
      simp [ih k h]

theorem assign_self (r : Repository) (k : Int) (v : List model.Event)
    (h : r.events k = some v) : (⟨assign r.events k v⟩ : Repository) = r := by
  cases r with
  | mk m =>
    congr
    funext j
    by_cases hj : j = k
    · subst hj
      simpa [assign] using h.symm
    · simp [assign, hj]

theorem getEventByUserId_absent (r : Repository) (userId eventId : Int)
    (h : r.events userId = none) : getEventByUserId r userId eventId = none := by
  simp [getEventByUserId, h, scan]

/-- C4 fails on the code: in the store of `TestUpdateEvent`, user 999 has no
sequence and `UpdateEvent` for that user returns `ErrNoSuchEvent`, not
`ErrNoSuchUser`. -/
theorem UpdateEvent_absent_user_not_ErrNoSuchUser :
    (run [.create event1, .create event2]).events 999 = none ∧
      (UpdateEvent (run [.create event1, .create event2])
          ⟨some 1, some 999, some "Should not work", none⟩).map (fun x => x.2.2)
        = some (some ErrNoSuchEvent) ∧
      (UpdateEvent (run [.create event1, .create event2])
          ⟨some 1, some 999, some "Should not work", none⟩).map (fun x => x.2.2)
        ≠ some (some ErrNoSuchUser) := by
  refine ⟨rfl, rfl, ?_⟩
  decide

/-- C4, amended: for a user without a sequence, `UpdateEvent` (with non-nil
`UserId` and `EventId`) fails with `ErrNoSuchEvent`, the error it also returns for
a missing event of a present user; it returns the zero event and leaves the store
as it was. -/
theorem UpdateEvent_absent_user (r : Repository) (userId eventId : Int)
    (text : Option String) (date : Option model.Date) (h : r.events userId = none) :
    UpdateEvent r ⟨some eventId, some userId, text, date⟩
      = some (r, ⟨0, 0, "", ⟨0, 0, 0⟩⟩, some ErrNoSuchEvent) :=
  UpdateEvent_missing r userId eventId text date (getEventByUserId_absent r userId eventId h)

/-- C4, amended, at the case "Update event for non-existent user" of
`TestUpdateEvent`. -/
theorem UpdateEvent_absent_user_witness :
    (run [.create event1, .create event2]).events 999 = none ∧
      UpdateEvent (run [.create event1, .create event2])
          ⟨some 1, some 999, some "Should not work", none⟩
        = some (run [.create event1, .create event2], ⟨0, 0, "", ⟨0, 0, 0⟩⟩,
            some ErrNoSuchEvent) :=
  ⟨rfl, UpdateEvent_absent_user _ 999 1 (some "Should not work") none rfl⟩

/-- C5: with non-nil `UserId` and `EventId`, `UpdateEvent` does not panic; it
returns an error exactly when no event of the user's sequence (empty for an absent
user) carries the requested id, and then the error is `ErrNoSuchEvent`, the event
is the zero `Event` and the store is the one before the call. -/
theorem UpdateEvent_fails_iff_no_event (r : Repository) (userId eventId : Int)
    (text : Option String) (date : Option model.Date) :
    ((∃ r' ev err, UpdateEvent r ⟨some eventId, some userId, text, date⟩
          = some (r', ev, some err))
        ↔ ∀ e ∈ (r.events userId).getD [], e.EventId ≠ eventId) ∧
      (∀ r' ev err, UpdateEvent r ⟨some eventId, some userId, text, date⟩
          = some (r', ev, some err) →
        err = ErrNoSuchEvent ∧ ev = ⟨0, 0, "", ⟨0, 0, 0⟩⟩ ∧ r' = r) ∧
      (∃ res, UpdateEvent r ⟨some eventId, some userId, text, date⟩ = some res) := by
  cases hs : getEventByUserId r userId eventId with
  | none =>
    have hres := UpdateEvent_missing r userId eventId text date hs
    refine ⟨⟨fun _ => (scan_eq_none eventId _).mp hs, fun _ => ⟨r, _, _, hres⟩⟩, ?_, _, hres⟩
    intro r' ev err h
    rw [hres] at h
    simp only [Option.some.injEq, Prod.mk.injEq] at h
    obtain ⟨h1, h2, h3⟩ := h
    exact ⟨h3.symm, h2.symm, h1.symm⟩
  | some p =>
    obtain ⟨i, prior⟩ := p
    have hres := UpdateEvent_found r userId eventId text date i prior hs
    refine ⟨⟨?_, ?_⟩, ?_, _, hres⟩
    · rintro ⟨r', ev, err, h⟩
      rw [hres] at h
      simp at h
    · intro hall
      have := (scan_eq_none eventId _).mpr hall
      rw [getEventByUserId, this] at hs
      cases hs
    · intro r' ev err h
      rw [hres] at h
      simp at h

/-- C5, at the case "Update non-existent event" of `TestUpdateEvent`: user 1 holds
ids 1 and 2, the request names id 999. -/
theorem UpdateEvent_fails_iff_no_event_witness :
    ∃ r' ev err, UpdateEvent (run [.create event1, .create event2])
        ⟨some 999, some 1, some "Should not work", none⟩ = some (r', ev, some err) :=
  (UpdateEvent_fails_iff_no_event (run [.create event1, .create event2]) 1 999
    (some "Should not work") none).1.mpr (by decide)

end repository

namespace repository

open Error

/-- C6: when the first event of the user's sequence carrying the requested id is
`prior`, at position `i`, `UpdateEvent` succeeds; the returned event has the
`EventId` and `UserId` of `prior`, the supplied text if there is one and the text
of `prior` otherwise, and independently the supplied date if there is one and the
date of `prior` otherwise; it is the event now stored at position `i`; with neither
field supplied the returned event is `prior` and the store is unchanged. -/
theorem UpdateEvent_overwrites_supplied_fields (r : Repository) (userId eventId : Int)
    (text : Option String) (date : Option model.Date) (evs : List model.Event)
    (i : Nat) (prior : model.Event)
    (hu : r.events userId = some evs) (hi : evs[i]? = some prior)
    (hid : prior.EventId = eventId)
    (hmin : ∀ j e', j < i → evs[j]? = some e' → e'.EventId ≠ eventId) :
    ∃ r' ret, UpdateEvent r ⟨some eventId, some userId, text, date⟩ = some (r', ret, none) ∧
      ret.EventId = prior.EventId ∧ ret.UserId = prior.UserId ∧
      (∀ t, text = some t → ret.Text = t) ∧ (text = none → ret.Text = prior.Text) ∧
      (∀ d, date = some d → ret.Date = d) ∧ (date = none → ret.Date = prior.Date) ∧
      r'.events userId = some (evs.set i ret) ∧
      (text = none → date = none → ret = prior ∧ r' = r) := by
  have hs : getEventByUserId r userId eventId = some (i, prior) := by
    rw [getEventByUserId, hu]
    exact scan_of_first eventId evs i prior hi hid hmin
  refine ⟨_, _, UpdateEvent_found r userId eventId text date i prior hs, rfl, rfl, ?_, ?_,
    ?_, ?_, ?_, ?_⟩
  · rintro t rfl
    rfl
  · rintro rfl
    rfl
  · rintro d rfl
    rfl
  · rintro rfl
    rfl
  · simp [assign, hu]
  · rintro rfl rfl
    refine ⟨rfl, ?_⟩
    have hset : ((r.events userId).getD []).set i
        ⟨prior.EventId, prior.UserId, (none : Option String).getD prior.Text,
          (none : Option model.Date).getD prior.Date⟩ = evs := by
      rw [hu]
      exact set_of_getElem? evs i prior hi
    rw [hset]
    exact assign_self r userId evs hu

/-- C6, at the case "Update event text only" of `TestUpdateEvent`: the text of
event 1 is replaced, its date is kept, event 2 is untouched. -/
theorem UpdateEvent_overwrites_supplied_fields_witness :
    ∃ r' ret, UpdateEvent (run [.create event1, .create event2])
        ⟨some 1, some 1, some "Updated Text", none⟩ = some (r', ret, none) ∧
      ret = ⟨1, 1, "Updated Text", jan15⟩ ∧
      r'.events 1 = some [⟨1, 1, "Updated Text", jan15⟩, ⟨2, 1, "Event 2", jan16⟩] := by
  obtain ⟨r', ret, h, h1, h2, h3, _, _, h5, h6, _⟩ :=
    UpdateEvent_overwrites_supplied_fields (run [.create event1, .create event2]) 1 1
      (some "Updated Text") none [⟨1, 1, "Event 1", jan15⟩, ⟨2, 1, "Event 2", jan16⟩] 0
      ⟨1, 1, "Event 1", jan15⟩ rfl rfl rfl (by intro j e' hj; omega)
  have hret : ret = ⟨1, 1, "Updated Text", jan15⟩ := by
    cases ret
    simp_all
  refine ⟨r', ret, h, hret, ?_⟩
  rw [h6, hret]
  rfl

end repository

namespace repository

open Error

/-! ## DeleteEvent -/

/-- C7: `DeleteEvent` returns `ErrNoSuchUser` exactly when the store has no
sequence for the user, `ErrNoSuchEvent` exactly when the user has a sequence none
of whose events carries the id, and no error exactly when some event of the
user's sequence carries it; whenever it returns an error the store is the one
before the call. -/
theorem DeleteEvent_error_cases (r : Repository) (userId eventId : Int) :
    ((∃ r', DeleteEvent r userId eventId = some (r', some ErrNoSuchUser))
        ↔ r.events userId = none) ∧
      ((∃ r', DeleteEvent r userId eventId = some (r', some ErrNoSuchEvent))
        ↔ ∃ evs, r.events userId = some evs ∧ ∀ e ∈ evs, e.EventId ≠ eventId) ∧
      ((∃ r', DeleteEvent r userId eventId = some (r', none))
        ↔ ∃ evs, r.events userId = some evs ∧ ∃ e ∈ evs, e.EventId = eventId) ∧
      (∀ r' err, DeleteEvent r userId eventId = some (r', some err) → r' = r) := by
  cases hu : r.events userId with
  | none =>
    have hres := DeleteEvent_absent r userId eventId hu
    rw [hres]
    simp
  | some evs =>
    cases hs : scan eventId evs with
    | none =>
      have hres := DeleteEvent_missing r userId eventId evs hu hs
      have hall := (scan_eq_none eventId evs).mp hs
      rw [hres]
      refine ⟨by simp, ?_, ?_, ?_⟩
      · simpa using hall
      · simpa using hall
      · intro r' err h
        simp only [Option.some.injEq, Prod.mk.injEq] at h
        exact h.1.symm
    | some p =>
      obtain ⟨i, x⟩ := p
      obtain ⟨last, _, hres⟩ := DeleteEvent_found r userId eventId evs i x hu hs
      obtain ⟨hx, hid, _⟩ := scan_eq_some eventId evs i x hs
      have hmem : ∃ e ∈ evs, e.EventId = eventId := ⟨x, List.getElem?_mem hx, hid⟩
      rw [hres]
      refine ⟨by simp, ?_, ?_, by simp⟩
      · simpa using hmem
      · simpa using hmem

/-- C7, at the cases "Delete non-existent event" and "Delete event from
non-existent user" of `TestDeleteEvent`. -/
theorem DeleteEvent_error_cases_witness :
    (∃ r', DeleteEvent (run [.create event1, .create event2]) 999 1
        = some (r', some ErrNoSuchUser)) ∧
      (∃ r', DeleteEvent (run [.create event1, .create event2]) 1 999
        = some (r', some ErrNoSuchEvent)) ∧
      (∃ r', DeleteEvent (run [.create event1, .create event2]) 1 1 = some (r', none)) :=
  ⟨(DeleteEvent_error_cases (run [.create event1, .create event2]) 999 1).1.mpr rfl,
    (DeleteEvent_error_cases (run [.create event1, .create event2]) 1 999).2.1.mpr
      ⟨[⟨1, 1, "Event 1", jan15⟩, ⟨2, 1, "Event 2", jan16⟩], rfl, by decide⟩,
    (DeleteEvent_error_cases (run [.create event1, .create event2]) 1 1).2.2.1.mpr
      ⟨[⟨1, 1, "Event 1", jan15⟩, ⟨2, 1, "Event 2", jan16⟩], rfl, by decide⟩⟩

theorem cons_dropLast_perm (l : List model.Event) (last : model.Event)
    (h : l.getLast? = some last) : (last :: l.dropLast).Perm l := by
  induction l with
  | nil => simp at h
  | cons a t ih =>
    cases t with
    | nil =>
      simp at h
      simp [h]
    | cons b t' =>
      rw [List.getLast?_cons_cons] at h
      rw [List.dropLast_cons₂]
      exact (List.Perm.swap a last _).trans ((ih h).cons a)

theorem swap_remove_perm (l : List model.Event) (i : Nat) (e last : model.Event)
    (hi : l[i]? = some e) (hl : l.getLast? = some last) :
    (e :: (l.set i last).dropLast).Perm l := by
  induction l generalizing i with
  | nil => simp at hi
  | cons a t ih =>
    cases i with
    | zero =>
      simp at hi
      subst hi
      cases t with
      | nil => simp
      | cons b t' =>
        rw [List.getLast?_cons_cons] at hl
        rw [List.set_cons_zero, List.dropLast_cons₂]
        exact (cons_dropLast_perm (b :: t') last hl).cons a
    | succ k =>
      cases t with
      | nil => simp at hi
      | cons b t' =>
        rw [List.getLast?_cons_cons] at hl
        have hk : (b :: t')[k]? = some e := by simpa using hi
        have hne : (b :: t').set k last ≠ [] := by
          intro hnil
          have := congrArg List.length hnil
          simp at this
        rw [List.set_cons_succ, List.dropLast_cons_of_ne_nil hne]
        exact (List.Perm.swap a e _).trans ((ih k hk hl).cons a)

/-- C9: when the first event of the user's sequence `evs` carrying the requested id
is `e`, at position `i`, `DeleteEvent` succeeds and the user's new sequence is
`evs` with position `i` overwritten by the last element and the last position
dropped; it has one element less, it is `evs` without its last element when `i` is
the last position, and together with `e` it is a rearrangement of `evs`: one event
carrying the id is removed and every other event is kept. -/
theorem DeleteEvent_swap_remove (r : Repository) (userId eventId : Int)
    (evs : List model.Event) (i : Nat) (e : model.Event)
    (hu : r.events userId = some evs) (hi : evs[i]? = some e)
    (hid : e.EventId = eventId)
    (hmin : ∀ j e', j < i → evs[j]? = some e' → e'.EventId ≠ eventId) :
    ∃ r' last, evs[evs.length - 1]? = some last ∧
      DeleteEvent r userId eventId = some (r', none) ∧
      r'.events userId = some ((evs.set i last).take (evs.length - 1)) ∧
      ((evs.set i last).take (evs.length - 1)).length + 1 = evs.length ∧
      (i = evs.length - 1 →
        (evs.set i last).take (evs.length - 1) = evs.take (evs.length - 1)) ∧
      (e :: (evs.set i last).take (evs.length - 1)).Perm evs := by
  have hs := scan_of_first eventId evs i e hi hid hmin
  have hlt := scan_lt eventId evs i e hs
  obtain ⟨last, hlast, hres⟩ := DeleteEvent_found r userId eventId evs i e hu hs
  refine ⟨_, last, hlast, hres, assign_same _ _ _, ?_, ?_, ?_⟩
  · simp
    omega
  · intro hlast_pos
    have hset : evs.set i last = evs := by
      apply set_of_getElem?
      rw [hlast_pos]
      exact hlast
    rw [hset]
  · have hdrop : (evs.set i last).take (evs.length - 1) = (evs.set i last).dropLast := by
      rw [List.dropLast_eq_take, List.length_set]
    rw [hdrop]
    exact swap_remove_perm evs i e last hi (by rw [List.getLast?_eq_getElem?]; exact hlast)

/-- C9, at the case "Delete existing event" of `TestDeleteEvent`: deleting id 1 from
the sequence with ids 1, 2 moves event 2 to the front and drops the last slot. -/
theorem DeleteEvent_swap_remove_witness :
    ∃ r', DeleteEvent (run [.create event1, .create event2]) 1 1 = some (r', none) ∧
      r'.events 1 = some [⟨2, 1, "Event 2", jan16⟩] := by
  obtain ⟨r', last, hlast, hres, hev, _⟩ :=
    DeleteEvent_swap_remove (run [.create event1, .create event2]) 1 1
      [⟨1, 1, "Event 1", jan15⟩, ⟨2, 1, "Event 2", jan16⟩] 0 ⟨1, 1, "Event 1", jan15⟩
      rfl rfl rfl (by intro j e' hj; omega)
  have hl : last = ⟨2, 1, "Event 2", jan16⟩ := by
    simp at hlast
    exact hlast.symm
  refine ⟨r', hres, ?_⟩
  rw [hev, hl]
  rfl

end repository

namespace repository

open Error

/-! ## Which users have a sequence in a reachable store -/

theorem getEventByUserId_present (r : Repository) (userId eventId : Int)
    (p : Nat × model.Event) (h : getEventByUserId r userId eventId = some p) :
    ∃ evs, r.events userId = some evs := by
  cases hu : r.events userId with
  | none => simp [getEventByUserId, hu, scan] at h
  | some evs => exact ⟨evs, rfl⟩

theorem assign_none_iff (m : Int → Option (List model.Event)) (k j : Int)
    (v w : List model.Event) (hk : m k = some w) : assign m k v j = none ↔ m j = none := by
  by_cases hj : j = k
  · subst hj
    simp [assign, hk]
  · simp [assign, hj]

theorem UpdateEvent_events_none (r r' : Repository) (updateEvent : model.UpdateEvent)
    (ev : model.Event) (err : Option Error)
    (h : UpdateEvent r updateEvent = some (r', ev, err)) (j : Int) :
    r'.events j = none ↔ r.events j = none := by
  obtain ⟨eid, uid, text, date⟩ := updateEvent
  cases uid with
  | none => simp [UpdateEvent] at h
  | some userId =>
    cases eid with
    | none => simp [UpdateEvent] at h
    | some eventId =>
      cases hs : getEventByUserId r userId eventId with
      | none =>
        rw [UpdateEvent_missing r userId eventId text date hs] at h
        simp only [Option.some.injEq, Prod.mk.injEq] at h
        rw [← h.1]
      | some p =>
        obtain ⟨i, prior⟩ := p
        obtain ⟨evs, hu⟩ := getEventByUserId_present r userId eventId _ hs
        rw [UpdateEvent_found r userId eventId text date i prior hs] at h
        simp only [Option.some.injEq, Prod.mk.injEq] at h
        rw [← h.1]
        exact assign_none_iff r.events userId j _ evs hu

theorem DeleteEvent_events_none (r r' : Repository) (userId eventId : Int)
    (err : Option Error) (h : DeleteEvent r userId eventId = some (r', err)) (j : Int) :
    r'.events j = none ↔ r.events j = none := by
  cases hu : r.events userId with
  | none =>
    rw [DeleteEvent_absent r userId eventId hu] at h
    simp only [Option.some.injEq, Prod.mk.injEq] at h
    rw [← h.1]
  | some evs =>
    cases hs : scan eventId evs with
    | none =>
      rw [DeleteEvent_missing r userId eventId evs hu hs] at h
      simp only [Option.some.injEq, Prod.mk.injEq] at h
      rw [← h.1]
    | some p =>
      obtain ⟨i, x⟩ := p
      obtain ⟨last, _, hres⟩ := DeleteEvent_found r userId eventId evs i x hu hs
      rw [hres] at h
      simp only [Option.some.injEq, Prod.mk.injEq] at h
      rw [← h.1]
      exact assign_none_iff r.events userId j _ evs hu

theorem step_events_none (r : Repository) (op : Op) (j : Int) :
    (step r op).events j = none ↔ r.events j = none ∧ createdBy j op = false := by
  cases op with
  | create event =>
    by_cases hj : j = event.UserId
    · subst hj
      simp [step, CreateEvent, assign, createdBy]
    · have hj' : ¬ event.UserId = j := fun h => hj h.symm
      simp [step, CreateEvent, assign, createdBy, hj, hj']
  | update updateEvent =>
    simp only [step, createdBy, and_true]
    cases h : UpdateEvent r updateEvent with
    | none => rfl
    | some res =>
      obtain ⟨r', ev, err⟩ := res
      exact UpdateEvent_events_none r r' updateEvent ev err h j
  | delete userId eventId =>
    simp only [step, createdBy, and_true]
    cases h : DeleteEvent r userId eventId with
    | none => rfl
    | some res =>
      obtain ⟨r', err⟩ := res
      exact DeleteEvent_events_none r r' userId eventId err h j

theorem foldl_step_events_none (ops : List Op) (r : Repository) (j : Int) :
    (ops.foldl step r).events j = none ↔ r.events j = none ∧ hasCreated ops j = false := by
  induction ops generalizing r with
  | nil => simp [hasCreated]
  | cons op rest ih =>
    rw [List.foldl_cons, ih (step r op), step_events_none]
    simp [hasCreated, and_assoc]

/-- A user has no sequence in a reachable store exactly when no call of the history
created an event for that user. -/
theorem run_events_none (ops : List Op) (j : Int) :
    (run ops).events j = none ↔ hasCreated ops j = false := by
  rw [run, foldl_step_events_none]
  simp [New]

end repository

namespace repository

open Error

/-- C8 fails on the code: after create and delete of its only event, user 1 has
zero events but still has a (now empty) sequence, and `DeleteEvent` for that user
returns `ErrNoSuchEvent`, not `ErrNoSuchUser`. -/
theorem DeleteEvent_emptied_user_not_ErrNoSuchUser :
    (run [.create event1, .delete 1 1]).events 1 = some [] ∧
      (DeleteEvent (run [.create event1, .delete 1 1]) 1 1).map Prod.snd
        = some (some ErrNoSuchEvent) ∧
      (DeleteEvent (run [.create event1, .delete 1 1]) 1 1).map Prod.snd
        ≠ some (some ErrNoSuchUser) := by
  refine ⟨rfl, rfl, ?_⟩
  decide

/-- C8, amended: in a store reached from the empty store, for a user who currently
has zero events, `DeleteEvent` returns `ErrNoSuchUser` when no call of the history
created an event for that user, and `ErrNoSuchEvent` when one did (all of the
user's events have since been deleted); the store is left as it was. -/
theorem DeleteEvent_zero_events (ops : List Op) (userId eventId : Int)
    (hzero : ((run ops).events userId).getD [] = []) :
    (hasCreated ops userId = false →
        DeleteEvent (run ops) userId eventId = some (run ops, some ErrNoSuchUser)) ∧
      (hasCreated ops userId = true →
        DeleteEvent (run ops) userId eventId = some (run ops, some ErrNoSuchEvent)) := by
  constructor
  · intro h
    exact DeleteEvent_absent _ userId eventId ((run_events_none ops userId).mpr h)
  · intro h
    cases hu : (run ops).events userId with
    | none =>
      rw [(run_events_none ops userId).mp hu] at h
      cases h
    | some evs =>
      rw [hu] at hzero
      simp only [Option.getD_some] at hzero
      subst hzero
      exact DeleteEvent_missing _ userId eventId [] hu rfl

/-- C8, amended, at the history create, delete for user 1: user 1 has zero events
and gets `ErrNoSuchEvent`. -/
theorem DeleteEvent_zero_events_witness :
    ((run [.create event1, .delete 1 1]).events 1).getD [] = [] ∧
      hasCreated [.create event1, .delete 1 1] 1 = true ∧
      DeleteEvent (run [.create event1, .delete 1 1]) 1 1
        = some (run [.create event1, .delete 1 1], some ErrNoSuchEvent) :=
  ⟨rfl, rfl,
    (DeleteEvent_zero_events [.create event1, .delete 1 1] 1 1 rfl).2 rfl⟩

/-! ## The range queries: error or result -/

/-- C10: in a store reached from the empty store, each of `GetEventsForDay`,
`GetEventsForWeek` and `GetEventsForMonth` returns the nil slice with
`ErrNoSuchUser` exactly when no call of the history created an event for the user,
and returns no error exactly when one did (whatever was deleted since and whether
or not any event matches). -/
theorem queries_fail_iff_never_created (ops : List Op) (userId : Int) (date : time.Time) :
    ((GetEventsForDay (run ops) userId date = ([], some ErrNoSuchUser)
          ↔ hasCreated ops userId = false) ∧
        ((GetEventsForDay (run ops) userId date).2 = some ErrNoSuchUser
          ↔ hasCreated ops userId = false) ∧
        ((GetEventsForDay (run ops) userId date).2 = none
          ↔ hasCreated ops userId = true)) ∧
      ((GetEventsForWeek (run ops) userId date = ([], some ErrNoSuchUser)
          ↔ hasCreated ops userId = false) ∧
        ((GetEventsForWeek (run ops) userId date).2 = some ErrNoSuchUser
          ↔ hasCreated ops userId = false) ∧
        ((GetEventsForWeek (run ops) userId date).2 = none
          ↔ hasCreated ops userId = true)) ∧
      ((GetEventsForMonth (run ops) userId date = ([], some ErrNoSuchUser)
          ↔ hasCreated ops userId = false) ∧
        ((GetEventsForMonth (run ops) userId date).2 = some ErrNoSuchUser
          ↔ hasCreated ops userId = false) ∧
        ((GetEventsForMonth (run ops) userId date).2 = none
          ↔ hasCreated ops userId = true)) := by
  have key := run_events_none ops userId
  cases hu : (run ops).events userId with
  | none =>
    have hc := key.mp hu
    simp [GetEventsForDay, GetEventsForWeek, GetEventsForMonth, hu, hc]
  | some evs =>
    have hc : hasCreated ops userId = true := by
      cases hb : hasCreated ops userId with
      | true => rfl
      | false =>
        rw [key.mpr hb] at hu
        cases hu
    simp [GetEventsForDay, GetEventsForWeek, GetEventsForMonth, hu, hc]

/-- C10, at the history create, delete for user 1: the day query for user 1, who
has created an event and holds none, returns the empty result without error; for
user 2, who never created one, it fails with `ErrNoSuchUser`. -/
theorem queries_fail_iff_never_created_witness :
    GetEventsForDay (run [.create event1, .delete 1 1]) 1 jan15 = ([], none) ∧
      GetEventsForDay (run [.create event1, .delete 1 1]) 2 jan15
        = ([], some ErrNoSuchUser) :=
  ⟨rfl, (queries_fail_iff_never_created [.create event1, .delete 1 1] 2 jan15).1.1.mpr rfl⟩

end repository

namespace repository

open Error

/-! ## The range queries: which events are returned -/

theorem GetEventsForDay_present (r : Repository) (userId : Int) (evs : List model.Event)
    (date : time.Time) (h : r.events userId = some evs) :
    GetEventsForDay r userId date
      = (evs.filter fun event =>
          decide (event.Date.Day = date.Day ∧ event.Date.Year = date.Year), none) := by
  simp [GetEventsForDay, h]

theorem GetEventsForWeek_present (r : Repository) (userId : Int) (evs : List model.Event)
    (date : time.Time) (h : r.events userId = some evs) :
    GetEventsForWeek r userId date
      = (evs.filter fun event =>
          decide (date.ISOWeek.1 = event.Date.ISOWeek.1 ∧
            date.ISOWeek.2 = event.Date.ISOWeek.2), none) := by
  simp [GetEventsForWeek, h]

theorem GetEventsForMonth_present (r : Repository) (userId : Int) (evs : List model.Event)
    (date : time.Time) (h : r.events userId = some evs) :
    GetEventsForMonth r userId date
      = (evs.filter fun event =>
          decide (event.Date.Month = date.Month ∧ event.Date.Year = date.Year), none) := by
  simp [GetEventsForMonth, h]

/-- C11: for a user with the sequence `evs`, `GetEventsForDay` returns no error and
a list that holds exactly the events of `evs` whose day of the month and year are
those of the reference date: it is a sublist of `evs` (sequence order, nothing
added) in which every matching event occurs as often as in `evs`. For the
sequence of three events dated 2024-01-15, 2024-01-16 and 2024-02-01 and a
reference date on 2024-01-15 it returns exactly the first. -/
theorem GetEventsForDay_exact :
    (∀ (r : Repository) (userId : Int) (evs : List model.Event) (date : time.Time),
        r.events userId = some evs →
        (GetEventsForDay r userId date).2 = none ∧
        (∀ e, e ∈ (GetEventsForDay r userId date).1 ↔
          e ∈ evs ∧ e.Date.Day = date.Day ∧ e.Date.Year = date.Year) ∧
        (GetEventsForDay r userId date).1.Sublist evs ∧
        (∀ e, e.Date.Day = date.Day → e.Date.Year = date.Year →
          (GetEventsForDay r userId date).1.count e = evs.count e)) ∧
      (∀ (r : Repository) (userId : Int) (a b c : model.Event) (date : time.Time),
        r.events userId = some [a, b, c] →
        a.Date.Year = 2024 ∧ a.Date.Month = 1 ∧ a.Date.Day = 15 →
        b.Date.Year = 2024 ∧ b.Date.Month = 1 ∧ b.Date.Day = 16 →
        c.Date.Year = 2024 ∧ c.Date.Month = 2 ∧ c.Date.Day = 1 →
        date.Year = 2024 ∧ date.Month = 1 ∧ date.Day = 15 →
        GetEventsForDay r userId date = ([a], none)) := by
  constructor
  · intro r userId evs date h
    rw [GetEventsForDay_present r userId evs date h]
    refine ⟨rfl, ?_, List.filter_sublist _, ?_⟩
    · intro e
      simp
    · intro e hd hy
      exact List.count_filter (by simp [hd, hy])
  · intro r userId a b c date h ha hb hc hd
    rw [GetEventsForDay_present r userId _ date h]
    simp [List.filter, ha.1, ha.2.2, hb.1, hb.2.2, hc.1, hc.2.2, hd.1, hd.2.2]

/-- C11, on the store of three events created for user 1 on 2024-01-15, 2024-01-16
and 2024-02-01: the day query for 2024-01-15 returns the first event alone. -/
theorem GetEventsForDay_exact_witness :
    GetEventsForDay
        (run [.create ⟨0, 1, "a", jan15⟩, .create ⟨0, 1, "b", jan16⟩, .create ⟨0, 1, "c", feb1⟩])
        1 ⟨63840873600, 0, 0⟩
      = ([⟨1, 1, "a", jan15⟩], none) :=
  GetEventsForDay_exact.2
    (run [.create ⟨0, 1, "a", jan15⟩, .create ⟨0, 1, "b", jan16⟩, .create ⟨0, 1, "c", feb1⟩])
    1 ⟨1, 1, "a", jan15⟩ ⟨2, 1, "b", jan16⟩ ⟨3, 1, "c", feb1⟩ ⟨63840873600, 0, 0⟩
    rfl (by decide) (by decide) (by decide) (by decide)

/-- C12: the store holds one event of user 1 dated 2024-02-15; `GetEventsForDay`
with the reference date 2024-01-15 returns it, although the event's month is 2 and
the reference date's month is 1: the test of the loop compares the day of the
month and the year and not the month. -/
theorem GetEventsForDay_other_month :
    GetEventsForDay (run [.create ⟨0, 1, "Event Feb 15", feb15⟩]) 1 jan15
        = ([⟨1, 1, "Event Feb 15", feb15⟩], none) ∧
      (feb15.Year, feb15.Month, feb15.Day) = (2024, 2, 15) ∧
      (jan15.Year, jan15.Month, jan15.Day) = (2024, 1, 15) := by
  refine ⟨?_, ?_, ?_⟩ <;> decide

/-- C13: for a user with the sequence `evs`, `GetEventsForMonth` returns no error
and a list that holds exactly the events of `evs` whose month and year are those of
the reference date: it is a sublist of `evs` (sequence order, nothing added) in
which every matching event occurs as often as in `evs`. For the sequence of three
events dated 2024-01-15, 2024-01-16 and 2024-02-01 and any reference date in
January 2024 it returns exactly the first two. -/
theorem GetEventsForMonth_exact :
    (∀ (r : Repository) (userId : Int) (evs : List model.Event) (date : time.Time),
        r.events userId = some evs →
        (GetEventsForMonth r userId date).2 = none ∧
        (∀ e, e ∈ (GetEventsForMonth r userId date).1 ↔
          e ∈ evs ∧ e.Date.Month = date.Month ∧ e.Date.Year = date.Year) ∧
        (GetEventsForMonth r userId date).1.Sublist evs ∧
        (∀ e, e.Date.Month = date.Month → e.Date.Year = date.Year →
          (GetEventsForMonth r userId date).1.count e = evs.count e)) ∧
      (∀ (r : Repository) (userId : Int) (a b c : model.Event) (date : time.Time),
        r.events userId = some [a, b, c] →
        a.Date.Year = 2024 ∧ a.Date.Month = 1 ∧ a.Date.Day = 15 →
        b.Date.Year = 2024 ∧ b.Date.Month = 1 ∧ b.Date.Day = 16 →
        c.Date.Year = 2024 ∧ c.Date.Month = 2 ∧ c.Date.Day = 1 →
        date.Year = 2024 ∧ date.Month = 1 →
        GetEventsForMonth r userId date = ([a, b], none)) := by
  constructor
  · intro r userId evs date h
    rw [GetEventsForMonth_present r userId evs date h]
    refine ⟨rfl, ?_, List.filter_sublist _, ?_⟩
    · intro e
      simp
    · intro e hd hy
      exact List.count_filter (by simp [hd, hy])
  · intro r userId a b c date h ha hb hc hd
    rw [GetEventsForMonth_present r userId _ date h]
    simp [List.filter, ha.1, ha.2.1, hb.1, hb.2.1, hc.1, hc.2.1, hd.1, hd.2]

/-- C13, on the store of three events created for user 1 on 2024-01-15, 2024-01-16
and 2024-02-01: the month query for 2024-01-17 returns the first two events. -/
theorem GetEventsForMonth_exact_witness :
    GetEventsForMonth
        (run [.create ⟨0, 1, "a", jan15⟩, .create ⟨0, 1, "b", jan16⟩, .create ⟨0, 1, "c", feb1⟩])
        1 jan17
      = ([⟨1, 1, "a", jan15⟩, ⟨2, 1, "b", jan16⟩], none) :=
  GetEventsForMonth_exact.2
    (run [.create ⟨0, 1, "a", jan15⟩, .create ⟨0, 1, "b", jan16⟩, .create ⟨0, 1, "c", feb1⟩])
    1 ⟨1, 1, "a", jan15⟩ ⟨2, 1, "b", jan16⟩ ⟨3, 1, "c", feb1⟩ jan17
    rfl (by decide) (by decide) (by decide) (by decide)

end repository

namespace time

/-! ## ISO weeks and Monday-to-Sunday spans -/

/-- The mixed-radix digits behind `yearAndYday`: whole 400-, 100-, 4- and 1-year
cycles and the day of the year. -/
theorem yearAndYday_digits (d : Int) :
    ∃ n400 n100 n4 n1 : Int, 0 ≤ n100 ∧ n100 ≤ 3 ∧ 0 ≤ n4 ∧ n4 ≤ 24 ∧ 0 ≤ n1 ∧ n1 ≤ 3 ∧
      0 ≤ (yearAndYday d).2 ∧ (yearAndYday d).2 ≤ 365 ∧
      (yearAndYday d).1 = 400 * n400 + 100 * n100 + 4 * n4 + n1 + 1 ∧
      d = 146097 * n400 + 36524 * n100 + 1461 * n4 + 365 * n1 + (yearAndYday d).2 := by
  simp only [yearAndYday, daysPer400Years, daysPer100Years, daysPer4Years]
  refine ⟨d / 146097, _, _, _, ?_, ?_, ?_, ?_, ?_, ?_, ?_, ?_, rfl, ?_⟩ <;> omega

/-- Two Thursdays with the same year and the same week of the year are the same
day. -/
theorem thursday_inj (a b : Int)
    (hy : (yearAndYday (7 * a + 3)).1 = (yearAndYday (7 * b + 3)).1)
    (hw : (yearAndYday (7 * a + 3)).2 / 7 + 1 = (yearAndYday (7 * b + 3)).2 / 7 + 1) :
    a = b := by
  obtain ⟨p, q, s, t, h1, h2, h3, h4, h5, h6, h7, h8, h9, h10⟩ :=
    yearAndYday_digits (7 * a + 3)
  obtain ⟨p', q', s', t', g1, g2, g3, g4, g5, g6, g7, g8, g9, g10⟩ :=
    yearAndYday_digits (7 * b + 3)
  omega

/-- `ISOWeek` reads the year and the week off the Thursday of the value's week,
the day `7 * (days / 7) + 3`. -/
theorem ISOWeek_thursday (t : Time) :
    t.ISOWeek = ((yearAndYday (7 * (t.days / 7) + 3)).1,
      (yearAndYday (7 * (t.days / 7) + 3)).2 / 7 + 1) := by
  have h : t.days + (if 4 - (t.days + 1) % 7 = 4 then -3 else 4 - (t.days + 1) % 7)
      = 7 * (t.days / 7) + 3 := by
    split <;> omega
  simp only [Time.ISOWeek, Time.Weekday, h]

theorem ISOWeek_eq_iff (a b : Time) : a.ISOWeek = b.ISOWeek ↔ a.days / 7 = b.days / 7 := by
  rw [ISOWeek_thursday a, ISOWeek_thursday b]
  constructor
  · intro h
    simp only [Prod.mk.injEq] at h
    exact thursday_inj _ _ h.1 h.2
  · intro h
    rw [h]

/-- Two values have the same day count divided by 7 exactly when some Monday has
both of them among itself and the six days after it. -/
theorem same_span_iff (a b : Time) :
    a.days / 7 = b.days / 7 ↔
      ∃ monday : Time, monday.Weekday = 1 ∧
        monday.days ≤ a.days ∧ a.days ≤ monday.days + 6 ∧
        monday.days ≤ b.days ∧ b.days ≤ monday.days + 6 := by
  constructor
  · intro h
    refine ⟨⟨86400 * (7 * (a.days / 7)), 0, 0⟩, ?_⟩
    have hm : (⟨86400 * (7 * (a.days / 7)), 0, 0⟩ : Time).days = 7 * (a.days / 7) := by
      simp only [Time.days, secondsPerDay]
      omega
    simp only [Time.Weekday, hm]
    omega
  · rintro ⟨m, hm, h1, h2, h3, h4⟩
    simp only [Time.Weekday] at hm
    omega

end time

namespace repository

open Error

theorem ISOWeek_of_days (a b : time.Time) (h : a.days = b.days) : a.ISOWeek = b.ISOWeek := by
  rw [time.ISOWeek_thursday a, time.ISOWeek_thursday b, h]

theorem week_test_iff (date d : time.Time) :
    (date.ISOWeek.1 = d.ISOWeek.1 ∧ date.ISOWeek.2 = d.ISOWeek.2) ↔ d.ISOWeek = date.ISOWeek := by
  constructor
  · rintro ⟨h1, h2⟩
    exact Prod.ext h1.symm h2.symm
  · intro h
    rw [h]
    exact ⟨rfl, rfl⟩

/-- C14: for a user with the sequence `evs`, `GetEventsForWeek` returns no error and
a list that holds exactly the events of `evs` whose pair of ISO year and ISO week
is that of the reference date: it is a sublist of `evs` (sequence order, nothing
added) in which every matching event occurs as often as in `evs`. For the
sequence of three events on Monday 2024-01-15, Sunday 2024-01-21 and Monday
2024-01-22 and a reference date on 2024-01-17 it returns exactly the first two. -/
theorem GetEventsForWeek_exact :
    (∀ (r : Repository) (userId : Int) (evs : List model.Event) (date : time.Time),
        r.events userId = some evs →
        (GetEventsForWeek r userId date).2 = none ∧
        (∀ e, e ∈ (GetEventsForWeek r userId date).1 ↔
          e ∈ evs ∧ e.Date.ISOWeek = date.ISOWeek) ∧
        (GetEventsForWeek r userId date).1.Sublist evs ∧
        (∀ e, e.Date.ISOWeek = date.ISOWeek →
          (GetEventsForWeek r userId date).1.count e = evs.count e)) ∧
      (∀ (r : Repository) (userId : Int) (a b c : model.Event) (date : time.Time),
        r.events userId = some [a, b, c] →
        a.Date.days = jan15.days → b.Date.days = jan21.days → c.Date.days = jan22.days →
        date.days = jan17.days →
        GetEventsForWeek r userId date = ([a, b], none)) ∧
      ((jan15.Year, jan15.Month, jan15.Day, jan15.Weekday) = (2024, 1, 15, 1) ∧
        (jan21.Year, jan21.Month, jan21.Day, jan21.Weekday) = (2024, 1, 21, 0) ∧
        (jan22.Year, jan22.Month, jan22.Day, jan22.Weekday) = (2024, 1, 22, 1) ∧
        (jan17.Year, jan17.Month, jan17.Day, jan17.Weekday) = (2024, 1, 17, 3) ∧
        jan17.ISOWeek = (2024, 3)) := by
  refine ⟨?_, ?_, ?_⟩
  · intro r userId evs date h
    rw [GetEventsForWeek_present r userId evs date h]
    refine ⟨rfl, ?_, List.filter_sublist _, ?_⟩
    · intro e
      simp only [List.mem_filter, decide_eq_true_eq, week_test_iff]
    · intro e he
      exact List.count_filter (by simp [he])
  · intro r userId a b c date h ha hb hc hd
    have ha' : a.Date.ISOWeek = (2024, 3) := (ISOWeek_of_days _ _ ha).trans (by decide)
    have hb' : b.Date.ISOWeek = (2024, 3) := (ISOWeek_of_days _ _ hb).trans (by decide)
    have hc' : c.Date.ISOWeek = (2024, 4) := (ISOWeek_of_days _ _ hc).trans (by decide)
    have hd' : date.ISOWeek = (2024, 3) := (ISOWeek_of_days _ _ hd).trans (by decide)
    rw [GetEventsForWeek_present r userId _ date h]
    simp [List.filter, ha', hb', hc', hd']
  · decide

/-- C14, on the store of `TestGetEventsForWeek` without its Wednesday event: the
week query for 2024-01-17 returns the Monday and the Sunday event and not the one
of the next Monday. -/
theorem GetEventsForWeek_exact_witness :
    GetEventsForWeek
        (run [.create ⟨0, 1, "Monday Event", jan15⟩, .create ⟨0, 1, "Sunday Event", jan21⟩,
          .create ⟨0, 1, "Next Monday Event", jan22⟩])
        1 jan17
      = ([⟨1, 1, "Monday Event", jan15⟩, ⟨2, 1, "Sunday Event", jan21⟩], none) :=
  GetEventsForWeek_exact.2.1
    (run [.create ⟨0, 1, "Monday Event", jan15⟩, .create ⟨0, 1, "Sunday Event", jan21⟩,
      .create ⟨0, 1, "Next Monday Event", jan22⟩])
    1 ⟨1, 1, "Monday Event", jan15⟩ ⟨2, 1, "Sunday Event", jan21⟩
    ⟨3, 1, "Next Monday Event", jan22⟩ jan17 rfl rfl rfl rfl rfl

/-- C15: `GetEventsForWeek` returns an event of the user's sequence exactly when
some Monday has both the event's day and the reference day among itself and the
six days after it (days counted in each value's own location), whatever the
calendar years of the seven days. An event on Monday 2024-12-30 is returned for
the reference date 2025-01-01 and an event on Sunday 2024-12-29 is not. -/
theorem GetEventsForWeek_monday_to_sunday :
    (∀ (r : Repository) (userId : Int) (evs : List model.Event) (ref : time.Time),
        r.events userId = some evs →
        ∀ e, e ∈ (GetEventsForWeek r userId ref).1 ↔
          e ∈ evs ∧ ∃ monday : time.Time, monday.Weekday = 1 ∧
            monday.days ≤ e.Date.days ∧ e.Date.days ≤ monday.days + 6 ∧
            monday.days ≤ ref.days ∧ ref.days ≤ monday.days + 6) ∧
      (∀ (r : Repository) (userId : Int) (a b : model.Event) (ref : time.Time),
        r.events userId = some [a, b] →
        a.Date.days = dec29.days → b.Date.days = dec30.days → ref.days = jan1of2025.days →
        GetEventsForWeek r userId ref = ([b], none)) ∧
      ((dec29.Year, dec29.Month, dec29.Day, dec29.Weekday) = (2024, 12, 29, 0) ∧
        (dec30.Year, dec30.Month, dec30.Day, dec30.Weekday) = (2024, 12, 30, 1) ∧
        (jan1of2025.Year, jan1of2025.Month, jan1of2025.Day, jan1of2025.Weekday)
          = (2025, 1, 1, 3)) := by
  refine ⟨?_, ?_, ?_⟩
  · intro r userId evs ref h e
    rw [GetEventsForWeek_present r userId evs ref h]
    simp only [List.mem_filter, decide_eq_true_eq, week_test_iff, time.ISOWeek_eq_iff,
      time.same_span_iff]
  · intro r userId a b ref h ha hb hr
    have ha' : a.Date.ISOWeek = (2024, 52) := (ISOWeek_of_days _ _ ha).trans (by decide)
    have hb' : b.Date.ISOWeek = (2025, 1) := (ISOWeek_of_days _ _ hb).trans (by decide)
    have hr' : ref.ISOWeek = (2025, 1) := (ISOWeek_of_days _ _ hr).trans (by decide)
    rw [GetEventsForWeek_present r userId _ ref h]
    simp [List.filter, ha', hb', hr']
  · decide

/-- C15, on a store with an event on Sunday 2024-12-29 and one on Monday
2024-12-30: the week query for 2025-01-01 returns the Monday event alone. -/
theorem GetEventsForWeek_monday_to_sunday_witness :
    GetEventsForWeek
        (run [.create ⟨0, 1, "Sunday", dec29⟩, .create ⟨0, 1, "Monday", dec30⟩]) 1 jan1of2025
      = ([⟨2, 1, "Monday", dec30⟩], none) :=
  GetEventsForWeek_monday_to_sunday.2.1
    (run [.create ⟨0, 1, "Sunday", dec29⟩, .create ⟨0, 1, "Monday", dec30⟩]) 1
    ⟨1, 1, "Sunday", dec29⟩ ⟨2, 1, "Monday", dec30⟩ jan1of2025 rfl rfl rfl rfl

end repository

namespace repository

open Error

/-! ## Invariants of the reachable stores -/

/-- What a returning `UpdateEvent` does to the store: nothing, or one event of one
user's sequence is replaced in place by an event with the same ids. -/
theorem UpdateEvent_inv (r r' : Repository) (updateEvent : model.UpdateEvent)
    (ev : model.Event) (err : Option Error)
    (h : UpdateEvent r updateEvent = some (r', ev, err)) :
    r' = r ∨ ∃ userId evs i prior text date, r.events userId = some evs ∧
      evs[i]? = some prior ∧
      r' = ⟨assign r.events userId
        (evs.set i ⟨prior.EventId, prior.UserId, text, date⟩)⟩ := by
  obtain ⟨eid, uid, text, date⟩ := updateEvent
  cases uid with
  | none => simp [UpdateEvent] at h
  | some userId =>
    cases eid with
    | none => simp [UpdateEvent] at h
    | some eventId =>
      cases hs : getEventByUserId r userId eventId with
      | none =>
        rw [UpdateEvent_missing r userId eventId text date hs] at h
        simp only [Option.some.injEq, Prod.mk.injEq] at h
        exact Or.inl h.1.symm
      | some p =>
        obtain ⟨i, prior⟩ := p
        obtain ⟨evs, hu⟩ := getEventByUserId_present r userId eventId _ hs
        rw [UpdateEvent_found r userId eventId text date i prior hs] at h
        simp only [Option.some.injEq, Prod.mk.injEq] at h
        have hi : evs[i]? = some prior := by
          rw [getEventByUserId, hu] at hs
          exact (scan_eq_some eventId evs i prior hs).1
        refine Or.inr ⟨userId, evs, i, prior, text.getD prior.Text, date.getD prior.Date,
          hu, hi, ?_⟩
        rw [← h.1, hu]
        rfl

/-- What a returning `DeleteEvent` does to the store: nothing, or one user's
sequence loses its last position after one position is overwritten by the last
element. -/
theorem DeleteEvent_inv (r r' : Repository) (userId eventId : Int) (err : Option Error)
    (h : DeleteEvent r userId eventId = some (r', err)) :
    r' = r ∨ ∃ evs i last, r.events userId = some evs ∧ last ∈ evs ∧
      r' = ⟨assign r.events userId ((evs.set i last).take (evs.length - 1))⟩ := by
  cases hu : r.events userId with
  | none =>
    rw [DeleteEvent_absent r userId eventId hu] at h
    simp only [Option.some.injEq, Prod.mk.injEq] at h
    exact Or.inl h.1.symm
  | some evs =>
    cases hs : scan eventId evs with
    | none =>
      rw [DeleteEvent_missing r userId eventId evs hu hs] at h
      simp only [Option.some.injEq, Prod.mk.injEq] at h
      exact Or.inl h.1.symm
    | some p =>
      obtain ⟨i, x⟩ := p
      obtain ⟨last, hlast, hres⟩ := DeleteEvent_found r userId eventId evs i x hu hs
      rw [hres] at h
      simp only [Option.some.injEq, Prod.mk.injEq] at h
      exact Or.inr ⟨evs, i, last, rfl, List.getElem?_mem hlast, h.1.symm⟩

theorem Owned_assign (r : Repository) (k : Int) (v : List model.Event) (h : Owned r)
    (hv : ∀ e ∈ v, e.UserId = k) : Owned ⟨assign r.events k v⟩ := by
  intro u evs hu e he
  by_cases huk : u = k
  · subst huk
    have hu' : assign r.events u v u = some evs := hu
    rw [assign_same] at hu'
    cases hu'
    exact hv e he
  · have hu' : assign r.events k v u = some evs := hu
    rw [assign_other _ _ _ _ huk] at hu'
    exact h u evs hu' e he

theorem Owned_step (r : Repository) (op : Op) (h : Owned r) : Owned (step r op) := by
  cases op with
  | create event =>
    apply Owned_assign r event.UserId _ h
    intro e he
    rcases List.mem_append.mp he with hold | hnew
    · cases hu : r.events event.UserId with
      | none => simp [hu] at hold
      | some evs =>
        rw [hu] at hold
        exact h event.UserId evs hu e hold
    · simp only [List.mem_singleton] at hnew
      rw [hnew]
  | update updateEvent =>
    simp only [step]
    cases hres : UpdateEvent r updateEvent with
    | none => exact h
    | some res =>
      obtain ⟨r', ev, err⟩ := res
      rcases UpdateEvent_inv r r' updateEvent ev err hres with rfl | hchanged
      · exact h
      · obtain ⟨userId, evs, i, prior, text, date, hu, hi, rfl⟩ := hchanged
        apply Owned_assign r userId _ h
        intro e he
        rcases List.mem_or_eq_of_mem_set he with hmem | rfl
        · exact h userId evs hu e hmem
        · exact h userId evs hu prior (List.getElem?_mem hi)
  | delete userId eventId =>
    simp only [step]
    cases hres : DeleteEvent r userId eventId with
    | none => exact h
    | some res =>
      obtain ⟨r', err⟩ := res
      rcases DeleteEvent_inv r r' userId eventId err hres with rfl | hchanged
      · exact h
      · obtain ⟨evs, i, last, hu, hlast, rfl⟩ := hchanged
        apply Owned_assign r userId _ h
        intro e he
        rcases List.mem_or_eq_of_mem_set (List.mem_of_mem_take he) with hmem | rfl
        · exact h userId evs hu e hmem
        · exact h userId evs hu e hlast

theorem Owned_foldl (ops : List Op) (r : Repository) (h : Owned r) :
    Owned (ops.foldl step r) := by
  induction ops generalizing r with
  | nil => exact h
  | cons op rest ih => exact ih (step r op) (Owned_step r op h)

theorem Owned_run (ops : List Op) : Owned (run ops) :=
  Owned_foldl ops New (by intro u evs hu; simp [New] at hu)

end repository

namespace repository

open Error

theorem query_mem (r : Repository) (userId : Int) (date : time.Time) (e : model.Event) :
    (e ∈ (GetEventsForDay r userId date).1 → ∃ evs, r.events userId = some evs ∧ e ∈ evs) ∧
      (e ∈ (GetEventsForWeek r userId date).1 →
        ∃ evs, r.events userId = some evs ∧ e ∈ evs) ∧
      (e ∈ (GetEventsForMonth r userId date).1 →
        ∃ evs, r.events userId = some evs ∧ e ∈ evs) := by
  cases hu : r.events userId with
  | none => simp [GetEventsForDay, GetEventsForWeek, GetEventsForMonth, hu]
  | some evs =>
    rw [GetEventsForDay_present r userId evs date hu,
      GetEventsForWeek_present r userId evs date hu,
      GetEventsForMonth_present r userId evs date hu]
    refine ⟨?_, ?_, ?_⟩ <;>
    · intro he
      exact ⟨evs, rfl, (List.mem_filter.mp he).1⟩

/-- C16: in a store reached from the empty store every event of user A's sequence
has `UserId` A, so each of the three range queries for A returns only events whose
`UserId` is A (none created for another user); and the first event created for a
user gets id 1 whatever other users hold. -/
theorem user_isolation (ops : List Op) (userId : Int) (date : time.Time) :
    (∀ evs, (run ops).events userId = some evs → ∀ e ∈ evs, e.UserId = userId) ∧
      (∀ e ∈ (GetEventsForDay (run ops) userId date).1, e.UserId = userId) ∧
      (∀ e ∈ (GetEventsForWeek (run ops) userId date).1, e.UserId = userId) ∧
      (∀ e ∈ (GetEventsForMonth (run ops) userId date).1, e.UserId = userId) ∧
      (∀ e : model.Event, e.UserId = userId → hasCreated ops userId = false →
        (CreateEvent (run ops) e).2.EventId = 1) := by
  have hown := Owned_run ops
  refine ⟨hown userId, ?_, ?_, ?_, ?_⟩
  · intro e he
    obtain ⟨evs, hu, hmem⟩ := (query_mem (run ops) userId date e).1 he
    exact hown userId evs hu e hmem
  · intro e he
    obtain ⟨evs, hu, hmem⟩ := (query_mem (run ops) userId date e).2.1 he
    exact hown userId evs hu e hmem
  · intro e he
    obtain ⟨evs, hu, hmem⟩ := (query_mem (run ops) userId date e).2.2 he
    exact hown userId evs hu e hmem
  · intro e he hc
    have hnone := (run_events_none ops userId).mpr hc
    subst he
    simp [CreateEvent, hnone]

/-- C16, on the store of `TestGetEventsForDay` reduced to one event of user 1 and one
of user 2 on the same day: the day query for user 2 returns the event of user 2
alone, and it has id 1. -/
theorem user_isolation_witness :
    GetEventsForDay (run [.create event1, .create ⟨0, 2, "Event for User 2", jan15⟩]) 2 jan15
        = ([⟨1, 2, "Event for User 2", jan15⟩], none) ∧
      ∀ e ∈ (GetEventsForDay
          (run [.create event1, .create ⟨0, 2, "Event for User 2", jan15⟩]) 2 jan15).1,
        e.UserId = 2 :=
  ⟨by decide,
    (user_isolation [.create event1, .create ⟨0, 2, "Event for User 2", jan15⟩] 2 jan15).2.1⟩

/-! ## Creation order without deletions -/

theorem Numbered_assign (r : Repository) (k : Int) (v : List model.Event)
    (h : Numbered r)
    (hv : ∀ (i : Nat) (e : model.Event), v[i]? = some e → e.EventId = (i : Int) + 1) :
    Numbered ⟨assign r.events k v⟩ := by
  intro u evs hu i e hi
  by_cases huk : u = k
  · subst huk
    have hu' : assign r.events u v u = some evs := hu
    rw [assign_same] at hu'
    cases hu'
    exact hv i e hi
  · have hu' : assign r.events k v u = some evs := hu
    rw [assign_other _ _ _ _ huk] at hu'
    exact h u evs hu' i e hi

theorem Numbered_step (r : Repository) (op : Op) (hop : isDelete op = false)
    (h : Numbered r) : Numbered (step r op) := by
  cases op with
  | create event =>
    apply Numbered_assign r event.UserId _ h
    intro i e hi
    have hold : ∀ (j : Nat) (x : model.Event),
        ((r.events event.UserId).getD [])[j]? = some x → x.EventId = (j : Int) + 1 := by
      cases hu : r.events event.UserId with
      | none => simp
      | some evs => exact h event.UserId evs hu
    rw [List.getElem?_append] at hi
    split at hi
    · exact hold i e hi
    · rename_i hge
      have hlen : i = ((r.events event.UserId).getD []).length := by
        have hlt := (List.getElem?_eq_some_iff.mp hi).1
        simp at hlt
        omega
      rw [hlen, Nat.sub_self] at hi
      simp at hi
      rw [← hi, hlen]
  | update updateEvent =>
    simp only [step]
    cases hres : UpdateEvent r updateEvent with
    | none => exact h
    | some res =>
      obtain ⟨r', ev, err⟩ := res
      rcases UpdateEvent_inv r r' updateEvent ev err hres with rfl | hchanged
      · exact h
      · obtain ⟨userId, evs, i, prior, text, date, hu, hi, rfl⟩ := hchanged
        apply Numbered_assign r userId _ h
        intro j e hj
        rw [List.getElem?_set] at hj
        split at hj
        · rename_i hij
          subst hij
          split at hj
          · cases hj
            exact h userId evs hu i prior hi
          · cases hj
        · exact h userId evs hu j e hj
  | delete userId eventId => simp [isDelete] at hop

theorem Numbered_foldl (ops : List Op) (hnd : ops.all (fun op => !isDelete op) = true)
    (r : Repository) (h : Numbered r) : Numbered (ops.foldl step r) := by
  induction ops generalizing r with
  | nil => exact h
  | cons op rest ih =>
    simp only [List.all_cons, Bool.and_eq_true, Bool.not_eq_true'] at hnd
    exact ih (by simpa using hnd.2) (step r op) (Numbered_step r op hnd.1 h)

theorem Numbered_map (evs : List model.Event)
    (h : ∀ (i : Nat) (e : model.Event), evs[i]? = some e → e.EventId = (i : Int) + 1) :
    evs.map (fun e => e.EventId) = (List.range evs.length).map fun (i : Nat) => (i : Int) + 1 := by
  apply List.ext_getElem?
  intro n
  rw [List.getElem?_map, List.getElem?_map]
  by_cases hn : n < evs.length
  · rw [List.getElem?_eq_getElem hn, List.getElem?_range hn, Option.map_some',
      Option.map_some', h n evs[n] (List.getElem?_eq_getElem hn)]
  · have hle : evs.length ≤ n := by omega
    rw [List.getElem?_eq_none hle, List.getElem?_eq_none (by simpa using hle)]
    rfl

theorem Numbered_pairwise (evs : List model.Event)
    (h : ∀ (i : Nat) (e : model.Event), evs[i]? = some e → e.EventId = (i : Int) + 1) :
    evs.Pairwise fun a b => a.EventId < b.EventId := by
  rw [List.pairwise_iff_getElem]
  intro i j hi hj hij
  rw [h i evs[i] (List.getElem?_eq_getElem hi), h j evs[j] (List.getElem?_eq_getElem hj)]
  omega

/-- C18: in a store reached from the empty store by `CreateEvent` and `UpdateEvent`
calls only, a user's sequence of length `n` carries the eventIds 1, 2, ..., `n` in
that order; so the result of each range query, a sublist of the sequence, lists
its events in the order of the sequence with strictly increasing eventIds. -/
theorem creation_order (ops : List Op) (hnd : ops.all (fun op => !isDelete op) = true)
    (userId : Int) (evs : List model.Event) (hu : (run ops).events userId = some evs)
    (date : time.Time) :
    evs.map (fun e => e.EventId) = (List.range evs.length).map (fun (i : Nat) => (i : Int) + 1) ∧
      ((GetEventsForDay (run ops) userId date).1.Sublist evs ∧
        (GetEventsForDay (run ops) userId date).1.Pairwise
          fun a b => a.EventId < b.EventId) ∧
      ((GetEventsForWeek (run ops) userId date).1.Sublist evs ∧
        (GetEventsForWeek (run ops) userId date).1.Pairwise
          fun a b => a.EventId < b.EventId) ∧
      ((GetEventsForMonth (run ops) userId date).1.Sublist evs ∧
        (GetEventsForMonth (run ops) userId date).1.Pairwise
          fun a b => a.EventId < b.EventId) := by
  have hnum : Numbered (run ops) :=
    Numbered_foldl ops hnd New (by intro u l hl; simp [New] at hl)
  have hidx := hnum userId evs hu
  have hpw := Numbered_pairwise evs hidx
  rw [GetEventsForDay_present _ userId evs date hu,
    GetEventsForWeek_present _ userId evs date hu,
    GetEventsForMonth_present _ userId evs date hu]
  exact ⟨Numbered_map evs hidx,
    ⟨List.filter_sublist _, hpw.filter _⟩, ⟨List.filter_sublist _, hpw.filter _⟩,
    ⟨List.filter_sublist _, hpw.filter _⟩⟩

/-- C18, on the history create, create, update of event 1, create for user 1: the
sequence carries the ids 1, 2, 3 and the month query for January 2024 returns the
events 1 and 2 in that order. -/
theorem creation_order_witness :
    ((run [.create event1, .create event2, .update ⟨some 1, some 1, some "Updated Text", none⟩,
          .create ⟨0, 1, "c", feb1⟩]).events 1).map (fun l => l.map fun e => e.EventId)
        = some [1, 2, 3] ∧
      (GetEventsForMonth
          (run [.create event1, .create event2,
            .update ⟨some 1, some 1, some "Updated Text", none⟩, .create ⟨0, 1, "c", feb1⟩])
          1 jan17).1.Pairwise (fun a b => a.EventId < b.EventId) :=
  ⟨by decide,
    (creation_order
      [.create event1, .create event2, .update ⟨some 1, some 1, some "Updated Text", none⟩,
        .create ⟨0, 1, "c", feb1⟩]
      (by decide) 1
      [⟨1, 1, "Updated Text", jan15⟩, ⟨2, 1, "Event 2", jan16⟩, ⟨3, 1, "c", feb1⟩]
      rfl jan17).2.2.2.2⟩

end repository

namespace repository

open Error

/-! ## The range queries as methods of the store -/

theorem rangeLoop_eq (test : model.Event → Bool) (evs : List model.Event)
    (r : Repository) (out : List model.Event) :
    stateful.rangeLoop test evs (r, out) = (r, out ++ evs.filter test) := by
  induction evs generalizing out with
  | nil => simp [stateful.rangeLoop]
  | cons a rest ih =>
    rw [stateful.rangeLoop, ih]
    by_cases ha : test a = true
    · simp [List.filter, ha]
    · simp [List.filter, ha]

/-- C17: each range query, run as a method on the store, returns the store it was
given (every user's presence and sequence unchanged) whether it fails or succeeds,
together with the result and error of the query; so a second run of the query on
the store left by the first returns the same result. -/
theorem queries_do_not_mutate (r : Repository) (userId : Int) (date : time.Time) :
    (stateful.GetEventsForDay r userId date = (r, GetEventsForDay r userId date) ∧
        stateful.GetEventsForWeek r userId date = (r, GetEventsForWeek r userId date) ∧
        stateful.GetEventsForMonth r userId date = (r, GetEventsForMonth r userId date)) ∧
      (∀ j, (stateful.GetEventsForDay r userId date).1.events j = r.events j) ∧
      (∀ j, (stateful.GetEventsForWeek r userId date).1.events j = r.events j) ∧
      (∀ j, (stateful.GetEventsForMonth r userId date).1.events j = r.events j) ∧
      (stateful.GetEventsForDay (stateful.GetEventsForDay r userId date).1 userId date).2
        = (stateful.GetEventsForDay r userId date).2 ∧
      (stateful.GetEventsForWeek (stateful.GetEventsForWeek r userId date).1 userId date).2
        = (stateful.GetEventsForWeek r userId date).2 ∧
      (stateful.GetEventsForMonth (stateful.GetEventsForMonth r userId date).1 userId date).2
        = (stateful.GetEventsForMonth r userId date).2 := by
  have hd : stateful.GetEventsForDay r userId date = (r, GetEventsForDay r userId date) := by
    cases hu : r.events userId with
    | none => simp [stateful.GetEventsForDay, GetEventsForDay, hu]
    | some evs => simp [stateful.GetEventsForDay, GetEventsForDay, hu, rangeLoop_eq]
  have hw : stateful.GetEventsForWeek r userId date = (r, GetEventsForWeek r userId date) := by
    cases hu : r.events userId with
    | none => simp [stateful.GetEventsForWeek, GetEventsForWeek, hu]
    | some evs => simp [stateful.GetEventsForWeek, GetEventsForWeek, hu, rangeLoop_eq]
  have hm : stateful.GetEventsForMonth r userId date
      = (r, GetEventsForMonth r userId date) := by
    cases hu : r.events userId with
    | none => simp [stateful.GetEventsForMonth, GetEventsForMonth, hu]
    | some evs => simp [stateful.GetEventsForMonth, GetEventsForMonth, hu, rangeLoop_eq]
  refine ⟨⟨hd, hw, hm⟩, ?_, ?_, ?_, ?_, ?_, ?_⟩
  · intro j
    rw [hd]
  · intro j
    rw [hw]
  · intro j
    rw [hm]
  · rw [hd]
    exact congrArg Prod.snd hd
  · rw [hw]
    exact congrArg Prod.snd hw
  · rw [hm]
    exact congrArg Prod.snd hm

/-- C17, on the store of two events of user 1: the day query returns the store and
the first event; for the absent user 999 it returns the store and `ErrNoSuchUser`. -/
theorem queries_do_not_mutate_witness :
    stateful.GetEventsForDay (run [.create event1, .create event2]) 1 jan15
        = (run [.create event1, .create event2], [⟨1, 1, "Event 1", jan15⟩], none) ∧
      stateful.GetEventsForDay (run [.create event1, .create event2]) 999 jan15
        = (run [.create event1, .create event2], [], some ErrNoSuchUser) :=
  ⟨(queries_do_not_mutate (run [.create event1, .create event2]) 1 jan15).1.1.trans
      (by rw [show GetEventsForDay (run [.create event1, .create event2]) 1 jan15
        = ([⟨1, 1, "Event 1", jan15⟩], none) by decide]),
    (queries_do_not_mutate (run [.create event1, .create event2]) 999 jan15).1.1.trans
      (by rw [show GetEventsForDay (run [.create event1, .create event2]) 999 jan15
        = ([], some ErrNoSuchUser) by decide])⟩

end repository

namespace handler

open repository

/-! ## The status of a response after a service call -/

theorem serviceError_status (err : GoError) :
    (serviceError err).status = statusFor (some err) := by
  by_cases h : errorsIs err .ErrNoSuchEvent = true ∨ errorsIs err .ErrNoSuchUser = true
  · have h' : (errorsIs err .ErrNoSuchEvent || errorsIs err .ErrNoSuchUser) = true := by
      simpa using h
    simp [serviceError, statusFor, h, h', http.StatusServiceUnavailable]
  · have h' : ¬ (errorsIs err .ErrNoSuchEvent || errorsIs err .ErrNoSuchUser) = true := by
      simpa using h
    simp [serviceError, statusFor, h, h', http.StatusInternalServerError]

/-- C20: in each of the update, delete, day, week and month handlers, once the
query parameters have parsed (and, for update, the body has bound and validated),
the status of the response is the one the mapping gives for the error the service
call returns: 200 without error, 503 for an error that is `ErrNoSuchEvent` or
`ErrNoSuchUser` (the sentinel itself or an error wrapping it), 500 for any other
error. -/
theorem handlers_error_mapping (lib : Library) (service : EventsService) (c : Request) :
    (∀ userId event_id updateEvent,
        lib.Atoi (c.Query "user_id") = .ok userId →
        lib.Atoi (c.Query "event_id") = .ok event_id →
        lib.BindJSON c ⟨some event_id, some userId, none, none⟩ = .ok updateEvent →
        lib.Validate updateEvent = none →
        (UpdateEvent lib service c).status = statusFor (service.UpdateEvent updateEvent).2) ∧
      (∀ userId event_id,
        lib.Atoi (c.Query "user_id") = .ok userId →
        lib.Atoi (c.Query "event_id") = .ok event_id →
        (DeleteEvent lib service c).status = statusFor (service.DeleteEvent userId event_id)) ∧
      (∀ userId date,
        lib.Atoi (c.Query "user_id") = .ok userId →
        lib.ParseDateOnly (c.Query "date") = .ok date →
        (GetEventsForDay lib service c).status
            = statusFor (service.GetEventsForDay userId date).2 ∧
          (GetEventsForWeek lib service c).status
            = statusFor (service.GetEventsForWeek userId date).2 ∧
          (GetEventsForMonth lib service c).status
            = statusFor (service.GetEventsForMonth userId date).2) ∧
      (statusFor none = 200 ∧
        (∀ e, statusFor (some (.sentinel e)) = 503) ∧
        (∀ msg, statusFor (some (.other msg)) = 500) ∧
        (∀ err, statusFor (some err) = 503 ↔
          (errorsIs err .ErrNoSuchEvent = true ∨ errorsIs err .ErrNoSuchUser = true)) ∧
        (∀ err, statusFor (some err) = 500 ↔
          ¬ (errorsIs err .ErrNoSuchEvent = true ∨ errorsIs err .ErrNoSuchUser = true))) := by
  refine ⟨?_, ?_, ?_, rfl, ?_, ?_, ?_, ?_⟩
  · intro userId event_id updateEvent h1 h2 h3 h4
    simp only [UpdateEvent, h1, h2, h3, h4]
    rcases hres : service.UpdateEvent updateEvent with ⟨event, _ | err⟩
    · rfl
    · exact serviceError_status err
  · intro userId event_id h1 h2
    simp only [DeleteEvent, h1, h2]
    cases hres : service.DeleteEvent userId event_id with
    | none => rfl
    | some err => exact serviceError_status err
  · intro userId date h1 h2
    refine ⟨?_, ?_, ?_⟩
    · simp only [GetEventsForDay, h1, h2]
      rcases hres : service.GetEventsForDay userId date with ⟨events, _ | err⟩
      · rfl
      · exact serviceError_status err
    · simp only [GetEventsForWeek, h1, h2]
      rcases hres : service.GetEventsForWeek userId date with ⟨events, _ | err⟩
      · rfl
      · exact serviceError_status err
    · simp only [GetEventsForMonth, h1, h2]
      rcases hres : service.GetEventsForMonth userId date with ⟨events, _ | err⟩
      · rfl
      · exact serviceError_status err
  · intro e
    cases e <;> simp [statusFor, errorsIs]
  · intro msg
    simp [statusFor, errorsIs]
  · intro err
    by_cases h : errorsIs err .ErrNoSuchEvent = true ∨ errorsIs err .ErrNoSuchUser = true
    · simp [statusFor, h]
    · simp [statusFor, h]
  · intro err
    by_cases h : errorsIs err .ErrNoSuchEvent = true ∨ errorsIs err .ErrNoSuchUser = true
    · simp [statusFor, h]
    · simp [statusFor, h]

/-- C20, at `TestUpdateEvent_ServiceError` and `TestGetEventsForDay_ServiceError`:
the update handler answers 503 when the service returns `ErrNoSuchEvent`, the day
handler 503 when it returns `ErrNoSuchUser`. -/
theorem handlers_error_mapping_witness :
    (UpdateEvent testLibrary failingService testRequest).status = 503 ∧
      (GetEventsForDay testLibrary failingService testRequest).status = 503 :=
  ⟨(handlers_error_mapping testLibrary failingService testRequest).1 1 1
      ⟨some 1, some 1, none, none⟩ rfl rfl rfl rfl,
    ((handlers_error_mapping testLibrary failingService testRequest).2.2.1 1 jan15
      rfl rfl).1⟩

end handler

namespace repository

open Error

/-! ## Calls of CreateEvent one after another -/

/-- Any number of `CreateEvent` calls for one user, run one after another in the
order of the list, extend the user's sequence by one event per call, with the
eventIds length + 1, length + 2, ... in the order of the calls. -/
theorem serial_CreateEvent (es : List model.Event) (u : Int)
    (hes : ∀ e ∈ es, e.UserId = u) (r : Repository) :
    (((es.foldl (fun s e => (CreateEvent s e).1) r).events u).getD []).map (fun e => e.EventId)
      = ((r.events u).getD []).map (fun e => e.EventId)
        ++ (List.range es.length).map
            (fun (i : Nat) => (((r.events u).getD []).length : Int) + 1 + (i : Int)) := by
  induction es generalizing r with
  | nil => simp
  | cons e rest ih =>
    have he : e.UserId = u := hes e (List.mem_cons_self _ _)
    have hrest : ∀ x ∈ rest, x.UserId = u := fun x hx => hes x (List.mem_cons_of_mem _ hx)
    have hnew : (CreateEvent r e).1.events u
        = some ((r.events u).getD [] ++
            [⟨(((r.events u).getD []).length : Int) + 1, e.UserId, e.Text, e.Date⟩]) := by
      subst he
      simp [CreateEvent, assign]
    rw [List.foldl_cons, ih hrest (CreateEvent r e).1, hnew]
    simp only [Option.getD_some, List.map_append, List.map_cons, List.map_nil,
      List.length_append, List.length_singleton, List.length_cons, List.append_assoc,
      List.singleton_append, List.range_succ_eq_map, List.map_map]
    congr 2
    simp
    intro i _
    omega

end repository

namespace repository

open Error

/-! ## Frames of the mutating methods -/

/-- C21: when the first event of the user's sequence `evs` carrying the requested
id is `prior`, at position `i`, `UpdateEvent` succeeds and the event it returns is
the event now stored at position `i`; the new sequence has the length of `evs`
and agrees with `evs` at every other position, so no other event of the user
changes or moves (also none of the later events with the same id). -/
theorem UpdateEvent_frame (r : Repository) (userId eventId : Int)
    (text : Option String) (date : Option model.Date) (evs : List model.Event)
    (i : Nat) (prior : model.Event)
    (hu : r.events userId = some evs) (hi : evs[i]? = some prior)
    (hid : prior.EventId = eventId)
    (hmin : ∀ j e', j < i → evs[j]? = some e' → e'.EventId ≠ eventId) :
    ∃ r' ret evs', UpdateEvent r ⟨some eventId, some userId, text, date⟩
        = some (r', ret, none) ∧
      r'.events userId = some evs' ∧
      evs'[i]? = some ret ∧
      evs'.length = evs.length ∧
      ∀ j, j ≠ i → evs'[j]? = evs[j]? := by
  have hs : getEventByUserId r userId eventId = some (i, prior) := by
    rw [getEventByUserId, hu]
    exact scan_of_first eventId evs i prior hi hid hmin
  have hlt : i < evs.length := (List.getElem?_eq_some_iff.mp hi).1
  refine ⟨_, _, evs.set i ⟨prior.EventId, prior.UserId, text.getD prior.Text,
      date.getD prior.Date⟩, UpdateEvent_found r userId eventId text date i prior hs, ?_, ?_,
    ?_, ?_⟩
  · simp [assign, hu]
  · rw [List.getElem?_set]
    simp [hlt]
  · simp
  · intro j hj
    exact List.getElem?_set_ne (fun h => hj h.symm)

/-- C21, at the case "Update event text only" of `TestUpdateEvent`: event 1 is
replaced at position 0 by the returned event and event 2 stays at position 1. -/
theorem UpdateEvent_frame_witness :
    ∃ r' ret evs', UpdateEvent (run [.create event1, .create event2])
        ⟨some 1, some 1, some "Updated Text", none⟩ = some (r', ret, none) ∧
      r'.events 1 = some evs' ∧ evs'[0]? = some ret ∧ evs'.length = 2 ∧
      evs'[1]? = some ⟨2, 1, "Event 2", jan16⟩ := by
  obtain ⟨r', ret, evs', h, hev, h0, hlen, hrest⟩ :=
    UpdateEvent_frame (run [.create event1, .create event2]) 1 1
      (some "Updated Text") none [⟨1, 1, "Event 1", jan15⟩, ⟨2, 1, "Event 2", jan16⟩] 0
      ⟨1, 1, "Event 1", jan15⟩ rfl rfl rfl (by intro j e' hj; omega)
  exact ⟨r', ret, evs', h, hev, h0, hlen, (hrest 1 (by omega)).trans rfl⟩

theorem queries_congr (r r' : Repository) (B : Int) (date : time.Time)
    (h : r'.events B = r.events B) :
    GetEventsForDay r' B date = GetEventsForDay r B date ∧
      GetEventsForWeek r' B date = GetEventsForWeek r B date ∧
      GetEventsForMonth r' B date = GetEventsForMonth r B date := by
  simp [GetEventsForDay, GetEventsForWeek, GetEventsForMonth, h]

/-- C22: for distinct users A and B, whatever a `CreateEvent`, `UpdateEvent` or
`DeleteEvent` call addressed to A returns (an event, no error or an error), the
store after it has for B what the store before it had: the same presence and the
same sequence; so each range query for B returns the same result on both. -/
theorem cross_user_frame (r r' : Repository) (A B : Int) (hAB : A ≠ B)
    (hcall : (∃ e : model.Event, e.UserId = A ∧ r' = (CreateEvent r e).1) ∨
      (∃ updateEvent ev err, updateEvent.UserId = some A ∧
        UpdateEvent r updateEvent = some (r', ev, err)) ∨
      (∃ eventId err, DeleteEvent r A eventId = some (r', err)))
    (date : time.Time) :
    r'.events B = r.events B ∧
      GetEventsForDay r' B date = GetEventsForDay r B date ∧
      GetEventsForWeek r' B date = GetEventsForWeek r B date ∧
      GetEventsForMonth r' B date = GetEventsForMonth r B date := by
  have hBA : B ≠ A := fun h => hAB h.symm
  have hev : r'.events B = r.events B := by
    rcases hcall with ⟨e, he, rfl⟩ | ⟨updateEvent, ev, err, hA, hres⟩ | ⟨eventId, err, hres⟩
    · subst he
      exact assign_other _ _ _ _ hBA
    · obtain ⟨eid, uid, text, dt⟩ := updateEvent
      simp only at hA
      subst hA
      cases eid with
      | none => simp [UpdateEvent] at hres
      | some eventId =>
        cases hs : getEventByUserId r A eventId with
        | none =>
          rw [UpdateEvent_missing r A eventId text dt hs] at hres
          simp only [Option.some.injEq, Prod.mk.injEq] at hres
          rw [← hres.1]
        | some p =>
          obtain ⟨i, prior⟩ := p
          rw [UpdateEvent_found r A eventId text dt i prior hs] at hres
          simp only [Option.some.injEq, Prod.mk.injEq] at hres
          rw [← hres.1]
          exact assign_other _ _ _ _ hBA
    · rcases DeleteEvent_inv r r' A eventId err hres with rfl | ⟨evs, i, last, _, _, rfl⟩
      · rfl
      · exact assign_other _ _ _ _ hBA
  exact ⟨hev, queries_congr r r' B date hev⟩

/-- C22, on the store of `TestDeleteEvent`: deleting event 1 of user 1 leaves the
sequence of user 2 as it was. -/
theorem cross_user_frame_witness :
    ∃ r', DeleteEvent
        (run [.create event1, .create event2, .create ⟨0, 2, "Event for User 2", jan17⟩]) 1 1
        = some (r', none) ∧
      r'.events 2 = some [⟨1, 2, "Event for User 2", jan17⟩] := by
  obtain ⟨last, _, h⟩ := DeleteEvent_found
    (run [.create event1, .create event2, .create ⟨0, 2, "Event for User 2", jan17⟩]) 1 1
    [⟨1, 1, "Event 1", jan15⟩, ⟨2, 1, "Event 2", jan16⟩] 0 ⟨1, 1, "Event 1", jan15⟩ rfl rfl
  exact ⟨_, h, (cross_user_frame _ _ 1 2 (by decide) (Or.inr (Or.inr ⟨1, none, h⟩)) jan17).1.trans
    rfl⟩

end repository

namespace repository

open Error

/-! ## DeleteEvent does not panic -/

/-- C23: `DeleteEvent` returns on every store, user and id, with no error,
`ErrNoSuchUser` or `ErrNoSuchEvent`: whenever the loop finds the id at position `i`
of the user's sequence, `i` is within the sequence, the index `len(events)-1` is
within it, and the reslice bound `len(events)-1` lies between 0 and the length; on
a present, empty sequence the loop body never runs and the result is
`ErrNoSuchEvent`. -/
theorem DeleteEvent_total (r : Repository) (userId eventId : Int) :
    (∃ r' err, DeleteEvent r userId eventId = some (r', err) ∧
        (err = none ∨ err = some ErrNoSuchUser ∨ err = some ErrNoSuchEvent)) ∧
      (∀ evs i e, r.events userId = some evs → scan eventId evs = some (i, e) →
        i < evs.length ∧
        ∃ last, index? evs ((evs.length : Int) - 1) = some last ∧
          ∃ rest, slice? (evs.set i last) ((evs.length : Int) - 1) = some rest) ∧
      (r.events userId = some [] →
        DeleteEvent r userId eventId = some (r, some ErrNoSuchEvent)) := by
  refine ⟨?_, ?_, ?_⟩
  · cases hu : r.events userId with
    | none => exact ⟨r, _, DeleteEvent_absent r userId eventId hu, Or.inr (Or.inl rfl)⟩
    | some evs =>
      cases hs : scan eventId evs with
      | none =>
        exact ⟨r, _, DeleteEvent_missing r userId eventId evs hu hs, Or.inr (Or.inr rfl)⟩
      | some p =>
        obtain ⟨i, x⟩ := p
        obtain ⟨last, _, hres⟩ := DeleteEvent_found r userId eventId evs i x hu hs
        exact ⟨_, _, hres, Or.inl rfl⟩
  · intro evs i e _ hs
    have hlt := scan_lt eventId evs i e hs
    have hpos : evs.length - 1 < evs.length := by omega
    have h1 : ¬ ((evs.length : Int) - 1 < 0) := by omega
    have h2 : ((evs.length : Int) - 1).toNat = evs.length - 1 := by omega
    refine ⟨hlt, evs[evs.length - 1], ?_, ?_⟩
    · simp only [index?, h1, if_false, h2, List.getElem?_eq_getElem hpos]
    · have h3 : (0 : Int) ≤ (evs.length : Int) - 1 ∧
          (evs.length : Int) - 1 ≤ ((evs.set i evs[evs.length - 1]).length : Int) := by
        simp
        omega
      refine ⟨(evs.set i evs[evs.length - 1]).take ((evs.length : Int) - 1).toNat, ?_⟩
      simp only [slice?, h3, and_self, if_true]
  · intro hu
    exact DeleteEvent_missing r userId eventId [] hu rfl

/-- C23, on the store left by create and delete of the only event of user 1 (the
user is present with an empty sequence): a further `DeleteEvent` returns
`ErrNoSuchEvent` and the store. -/
theorem DeleteEvent_total_witness :
    (run [.create event1, .delete 1 1]).events 1 = some [] ∧
      DeleteEvent (run [.create event1, .delete 1 1]) 1 1
        = some (run [.create event1, .delete 1 1], some ErrNoSuchEvent) :=
  ⟨rfl, (DeleteEvent_total (run [.create event1, .delete 1 1]) 1 1).2.2 rfl⟩

/-! ## Create then delete; update twice -/

theorem assign_assign_self (r : Repository) (k : Int) (v w : List model.Event)
    (h : r.events k = some w) :
    (⟨assign (assign r.events k v) k w⟩ : Repository) = r := by
  cases r with
  | mk m =>
    congr
    funext j
    by_cases hj : j = k
    · subst hj
      simpa [assign] using h.symm
    · simp [assign, hj]

/-- C24: when user `u` has the sequence `evs`, of length `n`, and no event of it
carries the id `n + 1`, `CreateEvent` of an event for `u` followed by `DeleteEvent`
of the returned id succeeds and the store after the two calls is the store before
them. -/
theorem create_delete_round_trip (r : Repository) (u : Int) (evs : List model.Event)
    (e : model.Event) (hu : r.events u = some evs) (he : e.UserId = u)
    (hfresh : ∀ x ∈ evs, x.EventId ≠ (evs.length : Int) + 1) :
    DeleteEvent (CreateEvent r e).1 u (CreateEvent r e).2.EventId = some (r, none) := by
  subst he
  have hret : (CreateEvent r e).2 = ⟨(evs.length : Int) + 1, e.UserId, e.Text, e.Date⟩ := by
    simp [CreateEvent, hu]
  have hstore : (CreateEvent r e).1
      = ⟨assign r.events e.UserId
          (evs ++ [⟨(evs.length : Int) + 1, e.UserId, e.Text, e.Date⟩])⟩ := by
    simp [CreateEvent, hu]
  rw [hret, hstore]
  have hidx : (evs ++ [(⟨(evs.length : Int) + 1, e.UserId, e.Text, e.Date⟩ : model.Event)])[
      evs.length]? = some ⟨(evs.length : Int) + 1, e.UserId, e.Text, e.Date⟩ := by
    simp
  have hs : scan ((evs.length : Int) + 1)
      (evs ++ [(⟨(evs.length : Int) + 1, e.UserId, e.Text, e.Date⟩ : model.Event)])
      = some (evs.length, ⟨(evs.length : Int) + 1, e.UserId, e.Text, e.Date⟩) := by
    apply scan_of_first _ _ _ _ hidx rfl
    intro j e' hj hje
    rw [List.getElem?_append_left hj] at hje
    exact hfresh e' (List.getElem?_mem hje)
  obtain ⟨last, hlast, hres⟩ := DeleteEvent_found
    ⟨assign r.events e.UserId
      (evs ++ [⟨(evs.length : Int) + 1, e.UserId, e.Text, e.Date⟩])⟩
    e.UserId _ _ _ _ (assign_same _ _ _) hs
  rw [hres]
  have hlen : (evs ++ [(⟨(evs.length : Int) + 1, e.UserId, e.Text, e.Date⟩ : model.Event)]).length
      - 1 = evs.length := by simp
  rw [hlen] at hlast ⊢
  rw [hidx] at hlast
  cases hlast
  rw [set_of_getElem? _ _ _ hidx]
  simp only [List.take_left', Option.some.injEq, Prod.mk.injEq, and_true]
  exact assign_assign_self r e.UserId _ evs hu

/-- C24, on the store of two events of user 1 (ids 1 and 2): creating a third
event, which gets id 3, and deleting id 3 gives back the store. -/
theorem create_delete_round_trip_witness :
    (CreateEvent (run [.create event1, .create event2]) event1).2.EventId = 3 ∧
      DeleteEvent (CreateEvent (run [.create event1, .create event2]) event1).1 1
          (CreateEvent (run [.create event1, .create event2]) event1).2.EventId
        = some (run [.create event1, .create event2], none) :=
  ⟨rfl, create_delete_round_trip (run [.create event1, .create event2]) 1
    [⟨1, 1, "Event 1", jan15⟩, ⟨2, 1, "Event 2", jan16⟩] event1 rfl rfl (by decide)⟩

end repository

namespace repository

open Error

/-- C25: with non-nil `UserId` and `EventId`, `UpdateEvent` returns, and the same
request applied again to the store it leaves returns the same event and error and
leaves that store as it is: two calls in succession end in the store of one call
and both return the same values. -/
theorem UpdateEvent_idempotent (r : Repository) (userId eventId : Int)
    (text : Option String) (date : Option model.Date) :
    ∃ r1 ev err,
      UpdateEvent r ⟨some eventId, some userId, text, date⟩ = some (r1, ev, err) ∧
      UpdateEvent r1 ⟨some eventId, some userId, text, date⟩ = some (r1, ev, err) := by
  cases hs : getEventByUserId r userId eventId with
  | none =>
    have hres := UpdateEvent_missing r userId eventId text date hs
    exact ⟨r, _, _, hres, hres⟩
  | some p =>
    obtain ⟨i, prior⟩ := p
    obtain ⟨evs, hu⟩ := getEventByUserId_present r userId eventId _ hs
    have hsc : scan eventId evs = some (i, prior) := by
      rw [getEventByUserId, hu] at hs
      exact hs
    obtain ⟨hi, hid, hmin⟩ := scan_eq_some eventId evs i prior hsc
    have hlt := scan_lt eventId evs i prior hsc
    have hres := UpdateEvent_found r userId eventId text date i prior hs
    rw [hu, Option.getD_some] at hres
    refine ⟨_, _, _, hres, ?_⟩
    have hidx : (evs.set i ⟨prior.EventId, prior.UserId, text.getD prior.Text,
        date.getD prior.Date⟩)[i]?
        = some ⟨prior.EventId, prior.UserId, text.getD prior.Text, date.getD prior.Date⟩ := by
      rw [List.getElem?_set]
      simp [hlt]
    have hs1 : getEventByUserId
        ⟨assign r.events userId (evs.set i ⟨prior.EventId, prior.UserId,
          text.getD prior.Text, date.getD prior.Date⟩)⟩ userId eventId
        = some (i, ⟨prior.EventId, prior.UserId, text.getD prior.Text,
            date.getD prior.Date⟩) := by
      simp only [getEventByUserId, assign_same, Option.getD_some]
      apply scan_of_first eventId _ i _ hidx hid
      intro j e' hj hje
      rw [List.getElem?_set_ne (by omega)] at hje
      exact hmin j e' hj hje
    rw [UpdateEvent_found _ userId eventId text date i _ hs1]
    have hsame : (⟨prior.EventId, prior.UserId,
        text.getD (text.getD prior.Text), date.getD (date.getD prior.Date)⟩ : model.Event)
        = ⟨prior.EventId, prior.UserId, text.getD prior.Text, date.getD prior.Date⟩ := by
      cases text <;> cases date <;> rfl
    simp only [assign_same, Option.getD_some, hsame, Option.some.injEq, Prod.mk.injEq,
      and_true]
    rw [set_of_getElem? _ _ _ hidx]
    exact assign_self
      ⟨assign r.events userId (evs.set i ⟨prior.EventId, prior.UserId,
        text.getD prior.Text, date.getD prior.Date⟩)⟩ userId _ (assign_same _ _ _)

/-- C25, at the case "Update event text only" of `TestUpdateEvent`, applied twice. -/
theorem UpdateEvent_idempotent_witness :
    ∃ r1, UpdateEvent (run [.create event1, .create event2])
          ⟨some 1, some 1, some "Updated Text", none⟩
        = some (r1, ⟨1, 1, "Updated Text", jan15⟩, none) ∧
      UpdateEvent r1 ⟨some 1, some 1, some "Updated Text", none⟩
        = some (r1, ⟨1, 1, "Updated Text", jan15⟩, none) := by
  obtain ⟨r1, ev, err, h1, h2⟩ := UpdateEvent_idempotent
    (run [.create event1, .create event2]) 1 1 (some "Updated Text") none
  have hfirst : UpdateEvent (run [.create event1, .create event2])
      ⟨some 1, some 1, some "Updated Text", none⟩
      = some (⟨assign (run [.create event1, .create event2]).events 1
          [⟨1, 1, "Updated Text", jan15⟩, ⟨2, 1, "Event 2", jan16⟩]⟩,
        ⟨1, 1, "Updated Text", jan15⟩, none) := rfl
  rw [hfirst] at h1
  simp only [Option.some.injEq, Prod.mk.injEq] at h1
  obtain ⟨hr, hev, herr⟩ := h1
  subst hr hev herr
  exact ⟨_, hfirst, h2⟩

end repository

namespace handler

open repository

/-! ## The future-date rule of the create handler -/

theorem ValidateStruct_rejects (now : time.Time) (event : model.Event)
    (h : validator.dateAfterNow (.date event.Date) now = false) :
    ∃ fe rest, validator.ValidateStruct now event = fe :: rest := by
  have hdate : ∃ fe, (if event.Date = default then
        [(⟨"Date", "required"⟩ : validator.FieldError)]
      else if validator.dateAfterNow (.date event.Date) now then []
      else [⟨"Date", "date_after_now"⟩]) = [fe] := by
    by_cases hz : event.Date = default
    · exact ⟨_, if_pos hz⟩
    · refine ⟨⟨"Date", "date_after_now"⟩, ?_⟩
      rw [if_neg hz, h]
      rfl
  obtain ⟨fe, hfe⟩ := hdate
  have hne : validator.ValidateStruct now event ≠ [] := by
    intro hnil
    simp only [validator.ValidateStruct, hfe] at hnil
    simp at hnil
  cases hv : validator.ValidateStruct now event with
  | nil => exact absurd hv hne
  | cons a l => exact ⟨a, l, rfl⟩

/-- C26: `dateAfterNow` accepts a date exactly when its instant is strictly later
than the clock reading `now` (later second, or the same second and a later
nanosecond), so it rejects a date equal to or earlier than `now`, and it rejects a
field that is no date; a create request whose bound event carries a date that
`dateAfterNow` rejects is answered with status 400 and leaves the state behind the
service as it was, whatever the service would do with an event, in particular
with the repository as that state. -/
theorem future_date_rule :
    (∀ (date : model.Date) (now : time.Time),
        validator.dateAfterNow (.date date) now = true ↔
          (now.sec < date.sec ∨ (now.sec = date.sec ∧ now.nsec < date.nsec))) ∧
      (∀ (date : model.Date) (now : time.Time),
        (date.sec < now.sec ∨ (date.sec = now.sec ∧ date.nsec ≤ now.nsec)) →
        validator.dateAfterNow (.date date) now = false) ∧
      (∀ now : time.Time, validator.dateAfterNow .other now = false) ∧
      (∀ (σ : Type) (BindJSON : Request → Except String model.Event) (now : time.Time)
          (service : model.Event → σ → σ × model.Event) (c : Request) (s : σ)
          (event : model.Event),
        BindJSON c = .ok event →
        validator.dateAfterNow (.date event.Date) now = false →
        (CreateEvent BindJSON now service c s).2.status = 400 ∧
          (CreateEvent BindJSON now service c s).1 = s) ∧
      (∀ (BindJSON : Request → Except String model.Event) (now : time.Time)
          (c : Request) (r : Repository) (event : model.Event),
        BindJSON c = .ok event →
        validator.dateAfterNow (.date event.Date) now = false →
        (CreateEvent BindJSON now (fun e st => service.CreateEvent st e) c r).1 = r) := by
  have hiff : ∀ (date : model.Date) (now : time.Time),
      validator.dateAfterNow (.date date) now = true ↔
        (now.sec < date.sec ∨ (now.sec = date.sec ∧ now.nsec < date.nsec)) := by
    intro date now
    simp only [validator.dateAfterNow, time.Time.After, Bool.or_eq_true, Bool.and_eq_true,
      decide_eq_true_eq, gt_iff_lt]
    constructor
    · rintro (h | ⟨h1, h2⟩)
      · exact Or.inl h
      · exact Or.inr ⟨h1.symm, h2⟩
    · rintro (h | ⟨h1, h2⟩)
      · exact Or.inl h
      · exact Or.inr ⟨h1.symm, h2⟩
  have hgen : ∀ (σ : Type) (BindJSON : Request → Except String model.Event)
      (now : time.Time) (service : model.Event → σ → σ × model.Event) (c : Request) (s : σ)
      (event : model.Event), BindJSON c = .ok event →
      validator.dateAfterNow (.date event.Date) now = false →
      (CreateEvent BindJSON now service c s).2.status = 400 ∧
        (CreateEvent BindJSON now service c s).1 = s := by
    intro σ BindJSON now service c s event hb hd
    obtain ⟨fe, rest, hv⟩ := ValidateStruct_rejects now event hd
    simp only [CreateEvent, hb, hv]
    exact ⟨rfl, trivial⟩
  refine ⟨hiff, ?_, fun _ => rfl, hgen, ?_⟩
  · intro date now h
    cases hb : validator.dateAfterNow (.date date) now with
    | false => rfl
    | true =>
      have := (hiff date now).mp hb
      omega
  · intro BindJSON now c r event hb hd
    exact (hgen Repository BindJSON now _ c r event hb hd).2

/-- C26, at `TestCreateEvent_ValidationError`: an event dated 2024-01-15 validated
at 2024-01-17 is answered with 400 and the empty repository stays empty. -/
theorem future_date_rule_witness :
    validator.dateAfterNow (.date pastDateEvent.Date) jan17 = false ∧
      (CreateEvent (fun _ => .ok pastDateEvent) jan17
          (fun e st => service.CreateEvent st e) testRequest New).2.status = 400 ∧
      (CreateEvent (fun _ => .ok pastDateEvent) jan17
          (fun e st => service.CreateEvent st e) testRequest New).1 = New :=
  ⟨rfl, future_date_rule.2.2.2.1 Repository (fun _ => .ok pastDateEvent) jan17
    (fun e st => service.CreateEvent st e) testRequest New pastDateEvent rfl rfl⟩

end handler
